import Mathlib

/-!
# Voicer.AI: the form submission handler of `static/script.js`

The script registers one `async` listener for the `submit` event of the form
`userForm`.  The listener is embedded as a term of an effect tree (`Prog`), one
node per statement of the source, and is given two semantics:

* `exec`: one run of the listener against an environment that answers the two
  awaited promises (`fetch` and `response.json()`);
* `Loop.step`: the run-to-completion event loop, in which several runs of the
  listener are in flight and the environment settles their promises in any order.

The language and platform operations the listener calls (`JSON.stringify`,
`JSON.parse`, property access, the conversion done by the `innerText` setter)
follow ECMA-262 and the DOM/Fetch standards.  Strings are sequences of UTF-16
code units.  A Number is represented by its `ToString` rendering, and the
conversion of a JSON number literal to that rendering (IEEE-754 arithmetic) is a
parameter `numText` of the parser.  The page is a tree of text nodes and elements;
assigning `innerText` replaces the children of the element by the rendered text
fragment of the string, and the text of an element is its `textContent`.  On a
single run the two semantics agree (`loop_single_run_eq_exec`).
-/

namespace Voicer

/-! ## Strings and values -/

/-- A UTF-16 code unit. -/
abbrev CodeUnit := Fin 65536

/-- A JavaScript string: a finite sequence of UTF-16 code units. -/
abbrev JSString := List CodeUnit

/-- The JavaScript string of a source literal (used for literals of the Basic
Multilingual Plane only). -/
def lit (s : String) : JSString := s.toList.map (fun c => Fin.ofNat c.toNat)

/-- JavaScript values that can reach the handler: what a form control's `value`
can hold and what `JSON.parse` can produce.  An object is its list of own
properties, keys distinct. -/
inductive JSVal where
  | undefined
  | null
  | bool (b : Bool)
  | num (rendering : JSString)
  | str (s : JSString)
  | arr (xs : List JSVal)
  | obj (props : List (JSString × JSVal))

/-- Exceptions and promise rejection reasons: the `TypeError` and `SyntaxError`
the language raises, and any other reason the platform rejects a promise with. -/
inductive Exn where
  | typeError
  | syntaxError
  | rejection (reason : JSString)
  deriving DecidableEq

deriving instance DecidableEq for Except

/-- Own-property lookup, `undefined` when the key is absent. -/
def getProp (key : JSString) : List (JSString × JSVal) → JSVal
  | [] => .undefined
  | (k, v) :: ps => if k = key then v else getProp key ps

/-- Whether the object has an own property `key`. -/
def hasProp (key : JSString) : List (JSString × JSVal) → Bool
  | [] => false
  | (k, _) :: ps => if k = key then true else hasProp key ps

/-- `CreateDataProperty`: overwrite the value of an existing key, else append. -/
def setProp (key : JSString) (v : JSVal) : List (JSString × JSVal) → List (JSString × JSVal)
  | [] => [(key, v)]
  | (k, w) :: ps => if k = key then (k, v) :: ps else (k, w) :: setProp key v ps

/-- The member expression `data.message`.  Reading a property of `null` or
`undefined` throws a `TypeError`; primitives and arrays have no property of
that name, own or inherited. -/
def JSVal.message : JSVal → Except Exn JSVal
  | .undefined => .error .typeError
  | .null => .error .typeError
  | .obj ps => .ok (getProp (lit "message") ps)
  | _ => .ok .undefined

/-! ## `JSON.stringify` -/

def isLeadingSurrogate (c : CodeUnit) : Bool := 0xD800 ≤ c.val && c.val ≤ 0xDBFF

def isTrailingSurrogate (c : CodeUnit) : Bool := 0xDC00 ≤ c.val && c.val ≤ 0xDFFF

/-- Lowercase hexadecimal digit of `d < 16`. -/
def hexDigit (d : Nat) : CodeUnit :=
  if d < 10 then Fin.ofNat (48 + d) else Fin.ofNat (87 + d)

/-- `UnicodeEscape`: backslash, `u`, four lowercase hexadecimal digits. -/
def unicodeEscape (c : CodeUnit) : JSString :=
  [92, 117, hexDigit (c.val / 4096), hexDigit (c.val / 256 % 16),
    hexDigit (c.val / 16 % 16), hexDigit (c.val % 16)]

/-- The output of `QuoteJSONString` for one code unit that is not a surrogate. -/
def escapeUnit (c : CodeUnit) : JSString :=
  if c.val = 8 then [92, 98]
  else if c.val = 9 then [92, 116]
  else if c.val = 10 then [92, 110]
  else if c.val = 12 then [92, 102]
  else if c.val = 13 then [92, 114]
  else if c.val = 34 then [92, 34]
  else if c.val = 92 then [92, 92]
  else if c.val < 32 then unicodeEscape c
  else [c]

/-- The body of `QuoteJSONString`, iterating over the code points of the
string: a surrogate pair is copied, an unpaired surrogate is escaped. -/
def quoteBody : JSString → JSString
  | [] => []
  | [c] => if isLeadingSurrogate c || isTrailingSurrogate c then unicodeEscape c else escapeUnit c
  | c :: d :: rest =>
    if isLeadingSurrogate c then
      if isTrailingSurrogate d then c :: d :: quoteBody rest
      else unicodeEscape c ++ quoteBody (d :: rest)
    else if isTrailingSurrogate c then unicodeEscape c ++ quoteBody (d :: rest)
    else escapeUnit c ++ quoteBody (d :: rest)

/-- `QuoteJSONString`. -/
def quoteJSONString (s : JSString) : JSString := 34 :: quoteBody s ++ [34]

/-- Renderings of the Numbers that are not finite. -/
def isNonFinite (r : JSString) : Bool :=
  r = lit "NaN" || r = lit "Infinity" || r = lit "-Infinity"

/-- Join with a separating comma. -/
def commaJoin : List JSString → JSString
  | [] => []
  | [x] => x
  | x :: y :: rest => x ++ 44 :: commaJoin (y :: rest)

mutual
/-- `SerializeJSONProperty` without replacer or indentation; `none` stands for
the result `undefined`. -/
def serialize : JSVal → Option JSString
  | .undefined => none
  | .null => some (lit "null")
  | .bool b => some (if b then lit "true" else lit "false")
  | .num r => some (if isNonFinite r then lit "null" else r)
  | .str s => some (quoteJSONString s)
  | .arr xs => some (91 :: commaJoin (serializeElems xs) ++ [93])
  | .obj ps => some (123 :: commaJoin (serializeProps ps) ++ [125])
/-- `SerializeJSONArray`: an element without serialization is written `null`. -/
def serializeElems : List JSVal → List JSString
  | [] => []
  | x :: xs => (serialize x).getD (lit "null") :: serializeElems xs
/-- `SerializeJSONObject`: a property without serialization is left out. -/
def serializeProps : List (JSString × JSVal) → List JSString
  | [] => []
  | (k, v) :: ps =>
    match serialize v with
    | none => serializeProps ps
    | some t => (quoteJSONString k ++ 58 :: t) :: serializeProps ps
end

/-- `JSON.stringify(value)`. -/
def JSON.stringify (v : JSVal) : Option JSString := serialize v

/-! ## The conversion done by the `innerText` setter -/

mutual
/-- `ToString` on the values above.  An object with an own `toString` property
cannot be converted: the property is not callable and `valueOf` returns the
object. -/
def toStringJS : JSVal → Except Exn JSString
  | .undefined => .ok (lit "undefined")
  | .null => .ok (lit "null")
  | .bool b => .ok (if b then lit "true" else lit "false")
  | .num r => .ok r
  | .str s => .ok s
  | .arr xs => joinElems xs
  | .obj ps => if hasProp (lit "toString") ps then .error .typeError else .ok (lit "[object Object]")
/-- `Array.prototype.join` with the comma separator: `undefined` and `null`
elements render as the empty string. -/
def joinElems : List JSVal → Except Exn JSString
  | [] => .ok []
  | [x] => elemString x
  | x :: y :: rest =>
    match elemString x with
    | .error e => .error e
    | .ok s =>
      match joinElems (y :: rest) with
      | .error e => .error e
      | .ok t => .ok (s ++ 44 :: t)
/-- One element of a joined array. -/
def elemString : JSVal → Except Exn JSString
  | .undefined => .ok []
  | .null => .ok []
  | .bool b => .ok (if b then lit "true" else lit "false")
  | .num r => .ok r
  | .str s => .ok s
  | .arr xs => joinElems xs
  | .obj ps => if hasProp (lit "toString") ps then .error .typeError else .ok (lit "[object Object]")
end

/-- The conversion to `DOMString` of the `innerText` setter, whose attribute is
declared `[LegacyNullToEmptyString]`: `null` becomes the empty string. -/
def toDOMString : JSVal → Except Exn JSString
  | .null => .ok []
  | v => toStringJS v

/-! ## `JSON.parse` -/

/-- JSON white space: tab, line feed, carriage return, space. -/
def isWs (c : CodeUnit) : Bool := c.val = 9 || c.val = 10 || c.val = 13 || c.val = 32

def skipWs : JSString → JSString
  | [] => []
  | c :: cs => if isWs c then skipWs cs else c :: cs

/-- Value of a hexadecimal digit, either case. -/
def hexVal (c : CodeUnit) : Option Nat :=
  if 48 ≤ c.val ∧ c.val ≤ 57 then some (c.val - 48)
  else if 97 ≤ c.val ∧ c.val ≤ 102 then some (c.val - 87)
  else if 65 ≤ c.val ∧ c.val ≤ 70 then some (c.val - 55)
  else none

/-- The code unit denoted by a single-character escape. -/
def unescape (c : CodeUnit) : Option CodeUnit :=
  if c.val = 34 then some 34
  else if c.val = 92 then some 92
  else if c.val = 47 then some 47
  else if c.val = 98 then some 8
  else if c.val = 102 then some 12
  else if c.val = 110 then some 10
  else if c.val = 114 then some 13
  else if c.val = 116 then some 9
  else none

/-- Put a code unit in front of a parsed string. -/
def consChar (c : CodeUnit) : Option (JSString × JSString) → Option (JSString × JSString)
  | none => none
  | some (s, rest) => some (c :: s, rest)

/-- The characters of a JSON string after its opening quote, up to and
including the closing quote: the string value and the remaining input. -/
def parseChars : JSString → Option (JSString × JSString)
  | [] => none
  | c :: cs =>
    if c.val = 34 then some ([], cs)
    else if c.val = 92 then
      match cs with
      | [] => none
      | e :: cs1 =>
        if e.val = 117 then
          match cs1 with
          | h1 :: h2 :: h3 :: h4 :: cs2 =>
            match hexVal h1, hexVal h2, hexVal h3, hexVal h4 with
            | some a, some b, some c, some d =>
              consChar (Fin.ofNat (a * 4096 + b * 256 + c * 16 + d)) (parseChars cs2)
            | _, _, _, _ => none
          | _ => none
        else
          match unescape e with
          | none => none
          | some u => consChar u (parseChars cs1)
    else if c.val < 32 then none
    else consChar c (parseChars cs)

def isDigit (c : CodeUnit) : Bool := 48 ≤ c.val && c.val ≤ 57

/-- The longest prefix of digits and the remaining input. -/
def takeDigits : JSString → JSString × JSString
  | [] => ([], [])
  | c :: cs => if isDigit c then ((takeDigits cs).1.cons c, (takeDigits cs).2) else ([], c :: cs)

/-- The integer part of a JSON number: `0`, or a nonzero digit and digits. -/
def scanInt : JSString → Option (JSString × JSString)
  | [] => none
  | c :: cs =>
    if c.val = 48 then some ([c], cs)
    else if isDigit c then some (c :: (takeDigits cs).1, (takeDigits cs).2)
    else none

/-- The optional fraction of a JSON number: a point and at least one digit. -/
def scanFrac : JSString → Option (JSString × JSString)
  | [] => some ([], [])
  | c :: cs =>
    if c.val = 46 then
      match takeDigits cs with
      | ([], _) => none
      | (ds, rest) => some (c :: ds, rest)
    else some ([], c :: cs)

/-- The digits of an exponent, at least one. -/
def scanExpDigits (pre : JSString) (s : JSString) : Option (JSString × JSString) :=
  match takeDigits s with
  | ([], _) => none
  | (ds, rest) => some (pre ++ ds, rest)

/-- The optional exponent of a JSON number. -/
def scanExp : JSString → Option (JSString × JSString)
  | [] => some ([], [])
  | c :: cs =>
    if c.val = 101 || c.val = 69 then
      match cs with
      | [] => none
      | g :: cs1 =>
        if g.val = 43 || g.val = 45 then scanExpDigits [c, g] cs1
        else scanExpDigits [c] cs
    else some ([], c :: cs)

/-- An unsigned JSON number literal: its text and the remaining input. -/
def scanUnsigned (s : JSString) : Option (JSString × JSString) :=
  match scanInt s with
  | none => none
  | some (i, r1) =>
    match scanFrac r1 with
    | none => none
    | some (f, r2) =>
      match scanExp r2 with
      | none => none
      | some (e, r3) => some (i ++ f ++ e, r3)

/-- A JSON number literal: its text and the remaining input. -/
def scanNumber : JSString → Option (JSString × JSString)
  | [] => none
  | c :: cs =>
    if c.val = 45 then
      match scanUnsigned cs with
      | none => none
      | some (t, rest) => some (c :: t, rest)
    else scanUnsigned (c :: cs)

/-- Remove a literal prefix. -/
def dropLiteral : JSString → JSString → Option JSString
  | [], s => some s
  | _ :: _, [] => none
  | p :: ps, c :: cs => if p = c then dropLiteral ps cs else none

/-- The values that are not arrays or objects, at an input without leading
white space. -/
def parseScalar (numText : JSString → JSString) (s : JSString) : Option (JSVal × JSString) :=
  match s with
  | [] => none
  | c :: cs =>
    if c.val = 34 then
      match parseChars cs with
      | none => none
      | some (t, rest) => some (.str t, rest)
    else if c.val = 116 then (dropLiteral (lit "true") s).map (fun rest => (.bool true, rest))
    else if c.val = 102 then (dropLiteral (lit "false") s).map (fun rest => (.bool false, rest))
    else if c.val = 110 then (dropLiteral (lit "null") s).map (fun rest => (.null, rest))
    else
      match scanNumber s with
      | none => none
      | some (t, rest) => some (.num (numText t), rest)

mutual
/-- A JSON value, leading white space allowed.  The first argument bounds the
number of nested and chained calls; the bound `JSON.parse` passes is enough
(`parseValue_fuel_enough`). -/
def parseValue (numText : JSString → JSString) : Nat → JSString → Option (JSVal × JSString)
  | 0, _ => none
  | fuel + 1, s =>
    match skipWs s with
    | [] => none
    | c :: cs =>
      if c.val = 91 then
        match skipWs cs with
        | [] => none
        | d :: ds =>
          if d.val = 93 then some (.arr [], ds)
          else
            match parseElems numText fuel (d :: ds) with
            | none => none
            | some (xs, rest) => some (.arr xs, rest)
      else if c.val = 123 then
        match skipWs cs with
        | [] => none
        | d :: ds =>
          if d.val = 125 then some (.obj [], ds)
          else
            match parseMembers numText fuel [] (d :: ds) with
            | none => none
            | some (ps, rest) => some (.obj ps, rest)
      else parseScalar numText (c :: cs)
/-- The elements of a nonempty array, up to and including the closing bracket. -/
def parseElems (numText : JSString → JSString) : Nat → JSString → Option (List JSVal × JSString)
  | 0, _ => none
  | fuel + 1, s =>
    match parseValue numText fuel s with
    | none => none
    | some (v, r) =>
      match skipWs r with
      | [] => none
      | c :: cs =>
        if c.val = 93 then some ([v], cs)
        else if c.val = 44 then
          match parseElems numText fuel cs with
          | none => none
          | some (vs, rest) => some (v :: vs, rest)
        else none
/-- The members of a nonempty object, up to and including the closing brace,
added to the properties read so far. -/
def parseMembers (numText : JSString → JSString) :
    Nat → List (JSString × JSVal) → JSString → Option (List (JSString × JSVal) × JSString)
  | 0, _, _ => none
  | fuel + 1, acc, s =>
    match skipWs s with
    | [] => none
    | q :: s1 =>
      if q.val = 34 then
        match parseChars s1 with
        | none => none
        | some (key, s2) =>
          match skipWs s2 with
          | [] => none
          | colon :: s3 =>
            if colon.val = 58 then
              match parseValue numText fuel s3 with
              | none => none
              | some (v, s4) =>
                match skipWs s4 with
                | [] => none
                | c :: cs =>
                  if c.val = 125 then some (setProp key v acc, cs)
                  else if c.val = 44 then parseMembers numText fuel (setProp key v acc) cs
                  else none
            else none
      else none
end

/-- `JSON.parse(text)`: the whole text is one JSON value; anything else is a
`SyntaxError`. -/
def JSON.parse (numText : JSString → JSString) (text : JSString) : Except Exn JSVal :=
  match parseValue numText (2 * text.length + 2) text with
  | none => .error .syntaxError
  | some (v, rest) => if skipWs rest = [] then .ok v else .error .syntaxError

/-! ## Page, network and effects -/

/-- The arguments of one call of `fetch(url, init)`. -/
structure Request where
  url : JSString
  method : JSString
  headers : List (JSString × JSString)
  body : Option JSString
  deriving DecidableEq

/-- What the handler can observe of a response: the status code, and the
decoded body text that `response.json()` reads, or the reason reading it fails. -/
structure Response where
  status : Nat
  body : Except Exn JSString

/-- A node of the document tree: a text node, a `br` element, or any other
element with its id (`none` when it has none), its `value` property (`undefined`
when it has none) and its children. -/
inductive Node where
  | text (data : JSString)
  | br
  | element (id : Option JSString) (value : JSVal) (children : List Node)

/-- What the handler touches of an element: its `value` property and its
children. -/
structure Element where
  value : JSVal
  children : List Node

/-- The document: the top-level nodes of its tree, in order. -/
abbrev Page := List Node

mutual
/-- The first element with the given id in a subtree, in tree order. -/
def findInNode (id : JSString) : Node → Option Element
  | .text _ => none
  | .br => none
  | .element i v cs => if i = some id then some { value := v, children := cs } else findInNodes id cs
/-- The first element with the given id in a list of subtrees, in tree order. -/
def findInNodes (id : JSString) : List Node → Option Element
  | [] => none
  | n :: rest =>
    match findInNode id n with
    | some el => some el
    | none => findInNodes id rest
end

/-- `document.getElementById(id)`: the first element with that id in tree order,
`none` for `null`. -/
def getElementById (id : JSString) (p : Page) : Option Element := findInNodes id p

mutual
/-- Change the first element with the given id in a subtree; `none` when the
subtree has no such element. -/
def updateNode (id : JSString) (f : Element → Element) : Node → Option Node
  | .text _ => none
  | .br => none
  | .element i v cs =>
    if i = some id then
      some (.element i (f { value := v, children := cs }).value
        (f { value := v, children := cs }).children)
    else
      match updateNodes id f cs with
      | none => none
      | some cs2 => some (.element i v cs2)
/-- Change the first element with the given id in a list of subtrees. -/
def updateNodes (id : JSString) (f : Element → Element) : List Node → Option (List Node)
  | [] => none
  | n :: rest =>
    match updateNode id f n with
    | some n2 => some (n2 :: rest)
    | none =>
      match updateNodes id f rest with
      | none => none
      | some rest2 => some (n :: rest2)
end

/-- The text node for a run of characters, none for the empty run. -/
def textRun (run : JSString) : List Node := if run = [] then [] else [.text run]

/-- The rendered text fragment of the rest of the input, `run` being the
characters read since the last line break. -/
def fragmentFrom (run : JSString) : JSString → List Node
  | [] => textRun run
  | [c] => if c.val = 10 ∨ c.val = 13 then textRun run ++ [.br] else textRun (run ++ [c])
  | c :: d :: rest =>
    if c.val = 13 then
      if d.val = 10 then textRun run ++ .br :: fragmentFrom [] rest
      else textRun run ++ .br :: fragmentFrom [] (d :: rest)
    else if c.val = 10 then textRun run ++ .br :: fragmentFrom [] (d :: rest)
    else fragmentFrom (run ++ [c]) (d :: rest)

/-- The rendered text fragment of a string (HTML standard): each maximal run
without line feed or carriage return becomes a text node, and each line feed,
carriage return, or carriage return followed by a line feed becomes a `br`
element. -/
def renderedTextFragment (input : JSString) : List Node := fragmentFrom [] input

/-- The page after `innerText` of the first element with that id is set to
`text`: its children are replaced by the rendered text fragment of `text`, so
whatever it contained is no longer in the document. -/
def setInnerText (id : JSString) (text : JSString) (p : Page) : Page :=
  (updateNodes id (fun el => { el with children := renderedTextFragment text }) p).getD p

/-- The page after the user edits the `value` of the first element with that id. -/
def setValue (id : JSString) (v : JSVal) (p : Page) : Page :=
  (updateNodes id (fun el => { el with value := v }) p).getD p

mutual
/-- The `textContent` of a node: the data of its text node descendants, in tree
order. -/
def Node.textContent : Node → JSString
  | .text d => d
  | .br => []
  | .element _ _ cs => textContentOf cs
/-- The concatenated `textContent` of a list of nodes. -/
def textContentOf : List Node → JSString
  | [] => []
  | n :: rest => n.textContent ++ textContentOf rest
end

/-- Line feed or carriage return. -/
def isLineBreak (c : CodeUnit) : Bool := c.val = 10 || c.val = 13

/-- The string without its line feeds and carriage returns. -/
def withoutLineBreaks (s : JSString) : JSString := s.filter (fun c => !isLineBreak c)

/-- The children of the element `id`, when it exists. -/
def contentOf (id : JSString) (p : Page) : Option (List Node) :=
  (getElementById id p).map (fun el => el.children)

/-- The text of the element `id`, when it exists: its `textContent`.  (The
`innerText` getter of a rendered element further applies the style sheets of
the page, which the repository does not contain.) -/
def textOf (id : JSString) (p : Page) : Option JSString :=
  (getElementById id p).map (fun el => textContentOf el.children)

/-- The observable steps of a run, in the order they happen. -/
inductive Effect where
  | preventDefault
  | readValue (id : JSString)
  | fetchCalled (req : Request)
  | fetchResolved
  | jsonCalled
  | jsonResolved
  | innerTextSet (id : JSString) (text : JSString)
  deriving DecidableEq

/-- The state a run acts on: the cancelled flag of the event being dispatched,
the page, and the log of effects so far. -/
structure World where
  defaultPrevented : Bool
  page : Page
  trace : List Effect

def World.log (w : World) (e : Effect) : World := { w with trace := w.trace ++ [e] }

/-- The requests handed to `fetch`, in order. -/
def requests : List Effect → List Request
  | [] => []
  | .fetchCalled req :: rest => req :: requests rest
  | _ :: rest => requests rest

/-- The writes to the page, in order. -/
def writes : List Effect → List (JSString × JSString)
  | [] => []
  | .innerTextSet id text :: rest => (id, text) :: writes rest
  | _ :: rest => writes rest

/-- `response.json()`: read the body, then `JSON.parse` it. -/
def Response.json (numText : JSString → JSString) (response : Response) : Except Exn JSVal :=
  match response.body with
  | .error e => .error e
  | .ok text => JSON.parse numText text

/-- Effect trees: the statements an `async` function of this script can run,
each with its continuation. -/
inductive Prog where
  | preventDefault (k : Prog)
  | readValue (id : JSString) (k : JSVal → Prog)
  | fetch (req : Request) (k : Response → Prog)
  | json (response : Response) (k : JSVal → Prog)
  | assignInnerText (id : JSString) (v : JSVal) (k : Prog)
  | throw (e : Exn)
  | done

/-! ## The handler -/

/-- The arguments of the handler's call of `fetch`, for the field value `name`:
```
fetch('/submit', { method: 'POST', headers: { 'Content-Type': 'application/json' },
    body: JSON.stringify({ name }) })
``` -/
def submitRequest (name : JSVal) : Request :=
  { url := lit "/submit"
    method := lit "POST"
    headers := [(lit "Content-Type", lit "application/json")]
    body := JSON.stringify (.obj [(lit "name", name)]) }

/-- The listener registered for `submit` on `userForm`:
```
e.preventDefault();
const name = document.getElementById('name').value;
const response = await fetch('/submit', { method: 'POST',
    headers: { 'Content-Type': 'application/json' }, body: JSON.stringify({ name }) });
const data = await response.json();
document.getElementById('greeting').innerText = data.message;
``` -/
def submitHandler : Prog :=
  .preventDefault <|
  .readValue (lit "name") fun name =>
  .fetch (submitRequest name) fun response =>
  .json response fun data =>
  match data.message with
  | .error e => .throw e
  | .ok message => .assignInnerText (lit "greeting") message .done

/-! ## One run against an environment -/

/-- One run of an effect tree to its end.  `net` is the outcome of the network
call for each request; the body of the response decides `response.json()`. -/
def exec (numText : JSString → JSString) (net : Request → Except Exn Response) :
    Prog → World → World × Except Exn Unit
  | .preventDefault k, w =>
    exec numText net k ({ w with defaultPrevented := true }.log .preventDefault)
  | .readValue id k, w =>
    match getElementById id w.page with
    | none => (w.log (.readValue id), .error .typeError)
    | some el => exec numText net (k el.value) (w.log (.readValue id))
  | .fetch req k, w =>
    match net req with
    | .error e => (w.log (.fetchCalled req), .error e)
    | .ok response => exec numText net (k response) ((w.log (.fetchCalled req)).log .fetchResolved)
  | .json response k, w =>
    match response.json numText with
    | .error e => (w.log .jsonCalled, .error e)
    | .ok data => exec numText net (k data) ((w.log .jsonCalled).log .jsonResolved)
  | .assignInnerText id v k, w =>
    match getElementById id w.page with
    | none => (w, .error .typeError)
    | some _ =>
      match toDOMString v with
      | .error e => (w, .error e)
      | .ok text =>
        exec numText net k ({ w with page := setInnerText id text w.page }.log (.innerTextSet id text))
  | .throw e, w => (w, .error e)
  | .done, w => (w, .ok ())

/-! ## The event loop -/

/-- A run of the handler between two turns of the event loop. -/
inductive Task where
  | awaitingFetch (req : Request) (k : Response → Prog)
  | awaitingJson (response : Response) (k : JSVal → Prog)
  | finished (result : Except Exn Unit)

/-- Run an effect tree until it awaits or ends. -/
def advance : Prog → World → World × Task
  | .preventDefault k, w => advance k ({ w with defaultPrevented := true }.log .preventDefault)
  | .readValue id k, w =>
    match getElementById id w.page with
    | none => (w.log (.readValue id), .finished (.error .typeError))
    | some el => advance (k el.value) (w.log (.readValue id))
  | .fetch req k, w => (w.log (.fetchCalled req), .awaitingFetch req k)
  | .json response k, w => (w.log .jsonCalled, .awaitingJson response k)
  | .assignInnerText id v k, w =>
    match getElementById id w.page with
    | none => (w, .finished (.error .typeError))
    | some _ =>
      match toDOMString v with
      | .error e => (w, .finished (.error e))
      | .ok text =>
        advance k ({ w with page := setInnerText id text w.page }.log (.innerTextSet id text))
  | .throw e, w => (w, .finished (.error e))
  | .done, w => (w, .finished (.ok ()))

/-- What the environment does between turns: the user submits the form or edits
a field, the network settles the `fetch` of run `i`, or the body of the response
of run `i` has been read and its `json()` promise settles. -/
inductive Ev where
  | submit
  | edit (id : JSString) (v : JSVal)
  | fetchSettled (i : Nat) (outcome : Except Exn Response)
  | bodySettled (i : Nat)

/-- The state of the event loop: the world, the runs started so far in order of
submission, and for each submission whether its default action was prevented
when the dispatch returned. -/
structure Loop where
  world : World
  tasks : List Task
  prevented : List Bool

/-- One turn of the event loop, run to completion.  An event that does not
match the state of its run changes nothing. -/
def Loop.step (numText : JSString → JSString) (handler : Prog) (L : Loop) : Ev → Loop
  | .submit =>
    let r := advance handler { L.world with defaultPrevented := false }
    { world := r.1, tasks := L.tasks ++ [r.2], prevented := L.prevented ++ [r.1.defaultPrevented] }
  | .edit id v => { L with world := { L.world with page := setValue id v L.world.page } }
  | .fetchSettled i outcome =>
    match L.tasks.get? i with
    | some (.awaitingFetch _ k) =>
      match outcome with
      | .error e => { L with tasks := L.tasks.set i (.finished (.error e)) }
      | .ok response =>
        let r := advance (k response) (L.world.log .fetchResolved)
        { L with world := r.1, tasks := L.tasks.set i r.2 }
    | _ => L
  | .bodySettled i =>
    match L.tasks.get? i with
    | some (.awaitingJson response k) =>
      match response.json numText with
      | .error e => { L with tasks := L.tasks.set i (.finished (.error e)) }
      | .ok data =>
        let r := advance (k data) (L.world.log .jsonResolved)
        { L with world := r.1, tasks := L.tasks.set i r.2 }
    | _ => L

/-- The event loop over a schedule of events. -/
def Loop.run (numText : JSString → JSString) (handler : Prog) : Loop → List Ev → Loop
  | L, [] => L
  | L, ev :: rest => Loop.run numText handler (Loop.step numText handler L ev) rest

/-- All interleavings of two schedules that keep the order within each. -/
def shuffles {α : Type} : List α → List α → List (List α)
  | [], ys => [ys]
  | xs, [] => [xs]
  | x :: xs, y :: ys =>
    (shuffles xs (y :: ys)).map (fun l => x :: l) ++ (shuffles (x :: xs) ys).map (fun l => y :: l)

/-- The run whose `json()` promise is the last to settle in a schedule. -/
def lastBodySettled : List Ev → Option Nat
  | [] => none
  | .bodySettled i :: rest =>
    match lastBodySettled rest with
    | none => some i
    | some j => some j
  | _ :: rest => lastBodySettled rest

/-- The run whose `fetch` promise is the last to settle in a schedule. -/
def lastFetchSettled : List Ev → Option Nat
  | [] => none
  | .fetchSettled i _ :: rest =>
    match lastFetchSettled rest with
    | none => some i
    | some j => some j
  | _ :: rest => lastFetchSettled rest

/-- The event loop of a freshly loaded page: no run started yet. -/
def Loop.init (w : World) : Loop := { world := w, tasks := [], prevented := [] }

/-- Two submissions in a row, the user changing the field `name` to `v2` in
between; no promise settles before the second submission. -/
def twoSubmissions (v2 : JSVal) : List Ev := [Ev.submit, Ev.edit (lit "name") v2, Ev.submit]

/-! ## A concrete page and concrete responses -/

/-- A page with the three elements the script looks up: the form `userForm`
holding the field `name` with value `name`, and the element `greeting` holding
the text `Welcome`. -/
def pageWith (name : JSVal) : Page :=
  [.element (some (lit "userForm")) .undefined
      [.element (some (lit "name")) name [],
       .element none .undefined [.text (lit "Greet")]],
   .element (some (lit "greeting")) .undefined [.text (lit "Welcome")]]

/-- The world before a submission on `pageWith name`. -/
def worldWith (name : JSVal) : World :=
  { defaultPrevented := false, page := pageWith name, trace := [] }

def helloAlice : Response :=
  { status := 200, body := .ok (lit "\x7b\"message\":\"Hello, Alice!\"\x7d") }

def helloAliceFailed : Response :=
  { status := 500, body := .ok (lit "\x7b\"error\":true,\"message\":\"Hello, Alice!\"\x7d") }

def helloBob : Response :=
  { status := 200, body := .ok (lit "\x7b\"message\":\"Hello, Bob!\"\x7d") }

def noMessage : Response :=
  { status := 200, body := .ok (lit "\x7b\"status\":\"ok\"\x7d") }

def notJson : Response :=
  { status := 502, body := .ok (lit "<html>Bad Gateway</html>") }

/-- A response whose message has a line break: carriage return, line feed. -/
def twoLines : Response :=
  { status := 200, body := .ok (lit "\x7b\"message\":\"a\\r\\nb\"\x7d") }

/-! ## Lemmas -/


theorem hexVal_hexDigit (d : Nat) (h : d < 16) : hexVal (hexDigit d) = some d := by
  interval_cases d <;> rfl

theorem parseChars_plain (c : CodeUnit) (rest : JSString) (h1 : c.val ≠ 34) (h2 : c.val ≠ 92)
    (h3 : ¬ c.val < 32) : parseChars (c :: rest) = consChar c (parseChars rest) := by
  rw [parseChars.eq_def]
  simp [h1, h2, h3]

theorem parseChars_quote (rest : JSString) : parseChars (34 :: rest) = some ([], rest) := by
  rw [parseChars.eq_def]
  simp +decide

theorem parseChars_escape (e u : CodeUnit) (rest : JSString) (he : e.val ≠ 117)
    (hu : unescape e = some u) : parseChars (92 :: e :: rest) = consChar u (parseChars rest) := by
  rw [parseChars.eq_def]
  simp +decide [he, hu]

theorem parseChars_unicodeEscape (c : CodeUnit) (rest : JSString) :
    parseChars (unicodeEscape c ++ rest) = consChar c (parseChars rest) := by
  have hc := c.isLt
  have e1 := hexVal_hexDigit (c.val / 4096) (by omega)
  have e2 := hexVal_hexDigit (c.val / 256 % 16) (by omega)
  have e3 := hexVal_hexDigit (c.val / 16 % 16) (by omega)
  have e4 := hexVal_hexDigit (c.val % 16) (by omega)
  have e5 : (Fin.ofNat (c.val / 4096 * 4096 + c.val / 256 % 16 * 256 + c.val / 16 % 16 * 16 + c.val % 16) : CodeUnit) = c := by
    apply Fin.ext
    simp [Fin.ofNat]
    omega
  simp +decide [unicodeEscape, parseChars, e1, e2, e3, e4, e5]

theorem parseChars_escapeUnit (c : CodeUnit) (rest : JSString) :
    parseChars (escapeUnit c ++ rest) = consChar c (parseChars rest) := by
  unfold escapeUnit
  split_ifs with h8 h9 h10 h12 h13 h34 h92 h32
  · have : c = 8 := Fin.ext h8
    subst this; exact parseChars_escape 98 8 rest (by decide) (by decide)
  · have : c = 9 := Fin.ext h9
    subst this; exact parseChars_escape 116 9 rest (by decide) (by decide)
  · have : c = 10 := Fin.ext h10
    subst this; exact parseChars_escape 110 10 rest (by decide) (by decide)
  · have : c = 12 := Fin.ext h12
    subst this; exact parseChars_escape 102 12 rest (by decide) (by decide)
  · have : c = 13 := Fin.ext h13
    subst this; exact parseChars_escape 114 13 rest (by decide) (by decide)
  · have : c = 34 := Fin.ext h34
    subst this; exact parseChars_escape 34 34 rest (by decide) (by decide)
  · have : c = 92 := Fin.ext h92
    subst this; exact parseChars_escape 92 92 rest (by decide) (by decide)
  · exact parseChars_unicodeEscape c rest
  · exact parseChars_plain c rest h34 h92 h32

theorem parseChars_quoteBody (v rest : JSString) :
    parseChars (quoteBody v ++ 34 :: rest) = some (v, rest) := by
  induction v using quoteBody.induct with
  | case1 => simp [quoteBody, parseChars_quote]
  | case2 c h => 
    simp only [quoteBody, h, if_true]
    rw [parseChars_unicodeEscape]
    simp [parseChars_quote, consChar]
  | case3 c h =>
    simp only [quoteBody, h]
    rw [if_neg (by simp), parseChars_escapeUnit]
    simp [parseChars_quote, consChar]
  | case4 c d rest' hc hd ih =>
    simp only [quoteBody, hc, hd, if_true]
    have hc1 : 0xD800 ≤ c.val := by simp [isLeadingSurrogate] at hc; omega
    have hd1 : 0xDC00 ≤ d.val := by simp [isTrailingSurrogate] at hd; omega
    rw [List.cons_append, List.cons_append, parseChars_plain c _ (by omega) (by omega) (by omega),
      parseChars_plain d _ (by omega) (by omega) (by omega), ih]
    rfl
  | case5 c d rest' hc hd ih =>
    simp only [quoteBody, hc, hd, if_true]
    rw [if_neg (by simp), List.append_assoc, parseChars_unicodeEscape, ih]
    rfl
  | case6 c d rest' hc hd ih =>
    simp only [quoteBody, hc, hd, if_true]
    rw [if_neg (by simp), List.append_assoc, parseChars_unicodeEscape, ih]
    rfl
  | case7 c d rest' hc hd ih =>
    simp only [quoteBody, hc, hd]
    rw [if_neg (by simp), if_neg (by simp), List.append_assoc, parseChars_escapeUnit, ih]
    rfl

theorem lit_open : lit "\x7b\"name\":" = [123, 34, 110, 97, 109, 101, 34, 58] := by decide

theorem lit_close : lit "\x7d" = [125] := by decide

theorem lit_name : lit "name" = [110, 97, 109, 101] := by decide

theorem quoteBody_name : quoteBody [110, 97, 109, 101] = [110, 97, 109, 101] := by decide

theorem stringify_name (v : JSString) :
    JSON.stringify (.obj [(lit "name", .str v)]) = some (lit "\x7b\"name\":" ++ quoteJSONString v ++ lit "\x7d") := by
  simp [JSON.stringify, serialize, serializeProps, commaJoin, quoteJSONString, lit_open, lit_close,
    lit_name, quoteBody_name]

theorem parseChars_name (rest : JSString) :
    parseChars (110 :: 97 :: 109 :: 101 :: 34 :: rest) = some (lit "name", rest) := by
  rw [parseChars_plain _ _ (by decide) (by decide) (by decide),
    parseChars_plain _ _ (by decide) (by decide) (by decide),
    parseChars_plain _ _ (by decide) (by decide) (by decide),
    parseChars_plain _ _ (by decide) (by decide) (by decide), parseChars_quote, lit_name]
  rfl

theorem skipWs_cons (c : CodeUnit) (rest : JSString) (h : isWs c = false) :
    skipWs (c :: rest) = c :: rest := by
  simp [skipWs, h]

theorem parseValue_string (numText : JSString → JSString) (fuel : Nat) (v rest : JSString) :
    parseValue numText (fuel + 1) (34 :: (quoteBody v ++ 34 :: rest)) = some (.str v, rest) := by
  rw [parseValue, skipWs_cons _ _ (by decide)]
  simp +decide [parseScalar, parseChars_quoteBody]

theorem parseMembers_name (numText : JSString → JSString) (fuel : Nat) (v : JSString) :
    parseMembers numText (fuel + 2) []
        (34 :: 110 :: 97 :: 109 :: 101 :: 34 :: 58 :: 34 :: (quoteBody v ++ 34 :: [125]))
      = some ([(lit "name", .str v)], []) := by
  rw [parseMembers, skipWs_cons _ _ (by decide)]
  simp +decide [parseChars_name, skipWs_cons, parseValue_string, setProp]

theorem parse_name_body (numText : JSString → JSString) (v : JSString) :
    JSON.parse numText (lit "\x7b\"name\":" ++ quoteJSONString v ++ lit "\x7d")
      = .ok (.obj [(lit "name", .str v)]) := by
  unfold JSON.parse
  obtain ⟨k, hk⟩ : ∃ k, 2 * (lit "\x7b\"name\":" ++ quoteJSONString v ++ lit "\x7d").length + 2 = k + 3 :=
    ⟨2 * (lit "\x7b\"name\":" ++ quoteJSONString v ++ lit "\x7d").length - 1, by
      simp [quoteJSONString, lit_open]; omega⟩
  rw [hk]
  have h : lit "\x7b\"name\":" ++ quoteJSONString v ++ lit "\x7d"
      = 123 :: 34 :: 110 :: 97 :: 109 :: 101 :: 34 :: 58 :: 34 :: (quoteBody v ++ 34 :: [125]) := by
    simp [quoteJSONString, lit_open, lit_close]
  rw [h, parseValue, skipWs_cons _ _ (by decide)]
  simp +decide [skipWs_cons, parseMembers_name, skipWs]


theorem requests_append (a b : List Effect) : requests (a ++ b) = requests a ++ requests b := by
  induction a with
  | nil => rfl
  | cons e a ih => cases e <;> simp [requests, ih]

theorem writes_append (a b : List Effect) : writes (a ++ b) = writes a ++ writes b := by
  induction a with
  | nil => rfl
  | cons e a ih => cases e <;> simp [writes, ih]

theorem skipWs_length_le (s : JSString) : (skipWs s).length ≤ s.length := by
  induction s with
  | nil => simp [skipWs]
  | cons c cs ih =>
    simp only [skipWs]
    split
    · simp only [List.length_cons]; omega
    · exact le_refl _

theorem consChar_some (c : CodeUnit) (o : Option (JSString × JSString)) (t r : JSString)
    (h : consChar c o = some (t, r)) : ∃ t2, o = some (t2, r) := by
  cases o with
  | none => simp [consChar] at h
  | some p =>
    obtain ⟨a, b⟩ := p
    simp [consChar] at h
    exact ⟨a, by rw [h.2]⟩

theorem parseChars_length_lt (s t r : JSString) (h : parseChars s = some (t, r)) :
    r.length < s.length := by
  induction s using parseChars.induct generalizing t with
  | case1 => simp [parseChars] at h
  | case2 c cs hc =>
    rw [parseChars.eq_def] at h
    simp [hc] at h
    simp [h.2]
  | case3 c h1 h2 =>
    rw [parseChars.eq_def] at h
    simp [h1, h2] at h
  | case4 c h1 h2 e he a1 a2 a3 a4 cs2 a b c1 d e4 e3 e2 e1 ih =>
    rw [parseChars.eq_def] at h
    simp [h1, h2, he, e1, e2, e3, e4] at h
    obtain ⟨t2, ht2⟩ := consChar_some _ _ _ _ h
    have := ih t2 ht2
    simp only [List.length_cons]; omega
  | case5 c h1 h2 e he a1 a2 a3 a4 cs2 hno =>
    rw [parseChars.eq_def] at h
    simp [h1, h2, he] at h
  | case6 c h1 h2 e cs1 he hno =>
    rw [parseChars.eq_def] at h
    simp [h1, h2, he] at h
  | case7 c h1 h2 e cs1 he hu =>
    rw [parseChars.eq_def] at h
    simp [h1, h2, he, hu] at h
  | case8 c h1 h2 e cs1 he u hu ih =>
    rw [parseChars.eq_def] at h
    simp [h1, h2, he, hu] at h
    obtain ⟨t2, ht2⟩ := consChar_some _ _ _ _ h
    have := ih t2 ht2
    simp only [List.length_cons]; omega
  | case9 c cs h1 h2 h3 =>
    rw [parseChars.eq_def] at h
    simp [h1, h2, h3] at h
  | case10 c cs h1 h2 h3 ih =>
    rw [parseChars.eq_def] at h
    simp [h1, h2, h3] at h
    obtain ⟨t2, ht2⟩ := consChar_some _ _ _ _ h
    have := ih t2 ht2
    simp only [List.length_cons]; omega

theorem takeDigits_length_le (s : JSString) : (takeDigits s).2.length ≤ s.length := by
  induction s with
  | nil => simp [takeDigits]
  | cons c cs ih =>
    simp only [takeDigits]
    split
    · simp only [List.length_cons]; omega
    · exact le_refl _

theorem scanInt_length_lt (s t r : JSString) (h : scanInt s = some (t, r)) :
    r.length < s.length := by
  cases s with
  | nil => simp [scanInt] at h
  | cons c cs =>
    simp only [scanInt] at h
    split at h
    · simp at h; simp [← h.2]
    · split at h
      · simp at h
        have := takeDigits_length_le cs
        rw [h.2] at this
        simp only [List.length_cons]; omega
      · simp at h

theorem scanFrac_length_le (s t r : JSString) (h : scanFrac s = some (t, r)) :
    r.length ≤ s.length := by
  cases s with
  | nil => simp [scanFrac] at h; simp [← h.2]
  | cons c cs =>
    simp only [scanFrac] at h
    split at h
    · have hl := takeDigits_length_le cs
      split at h
      · simp at h
      · rename_i ds rest _ heq
        simp at h
        rw [heq] at hl
        simp at hl
        rw [← h.2]
        simp only [List.length_cons]; omega
    · simp at h; simp [← h.2]

theorem scanExpDigits_length_le (pre s t r : JSString) (h : scanExpDigits pre s = some (t, r)) :
    r.length ≤ s.length := by
  have hl := takeDigits_length_le s
  simp only [scanExpDigits] at h
  split at h
  · simp at h
  · rename_i ds rest _ heq
    simp at h
    rw [heq] at hl
    simp at hl
    rw [← h.2]; exact hl

theorem scanExp_length_le (s t r : JSString) (h : scanExp s = some (t, r)) :
    r.length ≤ s.length := by
  cases s with
  | nil => simp [scanExp] at h; simp [← h.2]
  | cons c cs =>
    simp only [scanExp] at h
    split at h
    · split at h
      · simp at h
      · rename_i g cs1
        split at h
        · have := scanExpDigits_length_le _ _ _ _ h
          simp only [List.length_cons]; omega
        · have := scanExpDigits_length_le _ _ _ _ h
          simp only [List.length_cons] at *; omega
    · simp at h; simp [← h.2]

theorem scanUnsigned_length_lt (s t r : JSString) (h : scanUnsigned s = some (t, r)) :
    r.length < s.length := by
  simp only [scanUnsigned] at h
  split at h
  · simp at h
  · rename_i i r1 h1
    split at h
    · simp at h
    · rename_i f r2 h2
      split at h
      · simp at h
      · rename_i e r3 h3
        simp at h
        have a1 := scanInt_length_lt _ _ _ h1
        have a2 := scanFrac_length_le _ _ _ h2
        have a3 := scanExp_length_le _ _ _ h3
        rw [← h.2]; omega

theorem scanNumber_length_lt (s t r : JSString) (h : scanNumber s = some (t, r)) :
    r.length < s.length := by
  cases s with
  | nil => simp [scanNumber] at h
  | cons c cs =>
    simp only [scanNumber] at h
    split at h
    · split at h
      · simp at h
      · rename_i t2 rest h2
        simp at h
        have := scanUnsigned_length_lt _ _ _ h2
        rw [← h.2]
        simp only [List.length_cons]; omega
    · exact scanUnsigned_length_lt _ _ _ h

theorem dropLiteral_length_le (p s r : JSString) (h : dropLiteral p s = some r) :
    r.length + p.length = s.length := by
  induction p generalizing s with
  | nil => simp [dropLiteral] at h; simp [h]
  | cons a p ih =>
    cases s with
    | nil => simp [dropLiteral] at h
    | cons c cs =>
      simp only [dropLiteral] at h
      split at h
      · have := ih cs h
        simp only [List.length_cons]; omega
      · simp at h

theorem lit_true_length : (lit "true").length = 4 := by decide

theorem lit_false_length : (lit "false").length = 5 := by decide

theorem lit_null_length : (lit "null").length = 4 := by decide

theorem parseScalar_length_lt (numText : JSString → JSString) (s : JSString) (v : JSVal)
    (r : JSString) (h : parseScalar numText s = some (v, r)) : r.length < s.length := by
  cases s with
  | nil => simp [parseScalar] at h
  | cons c cs =>
    simp only [parseScalar] at h
    split at h
    · split at h
      · simp at h
      · rename_i t rest h2
        simp at h
        have := parseChars_length_lt _ _ _ h2
        rw [← h.2]
        simp only [List.length_cons]; omega
    · split at h
      · simp only [Option.map_eq_some'] at h
        obtain ⟨rest, h1, h2⟩ := h
        have := dropLiteral_length_le _ _ _ h1
        simp at h2
        rw [← h2.2]
        rw [lit_true_length] at this
        omega
      · split at h
        · simp only [Option.map_eq_some'] at h
          obtain ⟨rest, h1, h2⟩ := h
          have := dropLiteral_length_le _ _ _ h1
          simp at h2
          rw [← h2.2]
          rw [lit_false_length] at this
          omega
        · split at h
          · simp only [Option.map_eq_some'] at h
            obtain ⟨rest, h1, h2⟩ := h
            have := dropLiteral_length_le _ _ _ h1
            simp at h2
            rw [← h2.2]
            rw [lit_null_length] at this
            omega
          · split at h
            · simp at h
            · rename_i t rest h2
              simp at h
              have := scanNumber_length_lt _ _ _ h2
              rw [← h.2]; exact this

theorem skipWs_cons_length (s : JSString) (c : CodeUnit) (cs : JSString)
    (h : skipWs s = c :: cs) : cs.length < s.length := by
  have := skipWs_length_le s
  rw [h] at this
  simp only [List.length_cons] at this
  omega

/-- A successful parse consumes input. -/
theorem parse_length_lt (numText : JSString → JSString) (fuel : Nat) :
    (∀ s v r, parseValue numText fuel s = some (v, r) → r.length < s.length)
      ∧ (∀ s vs r, parseElems numText fuel s = some (vs, r) → r.length < s.length)
      ∧ (∀ acc s ps r, parseMembers numText fuel acc s = some (ps, r) → r.length < s.length) := by
  induction fuel with
  | zero =>
    refine ⟨?_, ?_, ?_⟩
    · intro s v r h; simp [parseValue] at h
    · intro s vs r h; simp [parseElems] at h
    · intro acc s ps r h; simp [parseMembers] at h
  | succ fuel ih =>
    obtain ⟨ihV, ihE, ihM⟩ := ih
    refine ⟨?_, ?_, ?_⟩
    · intro s v r h
      simp only [parseValue] at h
      split at h
      · simp at h
      · rename_i c cs hs
        have l1 := skipWs_cons_length _ _ _ hs
        split at h
        · split at h
          · simp at h
          · rename_i d ds hd
            have l2 := skipWs_length_le cs
            rw [hd] at l2
            simp only [List.length_cons] at l2
            split at h
            · simp at h
              rw [← h.2]; omega
            · split at h
              · simp at h
              · rename_i xs rest he
                simp at h
                have := ihE _ _ _ he
                simp only [List.length_cons] at this
                rw [← h.2]; omega
        · split at h
          · split at h
            · simp at h
            · rename_i d ds hd
              have l2 := skipWs_length_le cs
              rw [hd] at l2
              simp only [List.length_cons] at l2
              split at h
              · simp at h
                rw [← h.2]; omega
              · split at h
                · simp at h
                · rename_i xs rest he
                  simp at h
                  have := ihM _ _ _ _ he
                  simp only [List.length_cons] at this
                  rw [← h.2]; omega
          · have := parseScalar_length_lt _ _ _ _ h
            simp only [List.length_cons] at this
            omega
    · intro s vs r h
      simp only [parseElems] at h
      split at h
      · simp at h
      · rename_i v r1 hv
        have l1 := ihV _ _ _ hv
        split at h
        · simp at h
        · rename_i c cs hs
          have l2 := skipWs_cons_length _ _ _ hs
          split at h
          · simp at h
            rw [← h.2]; omega
          · split at h
            · split at h
              · simp at h
              · rename_i vs2 rest he
                simp at h
                have := ihE _ _ _ he
                rw [← h.2]; omega
            · simp at h
    · intro acc s ps r h
      simp only [parseMembers] at h
      split at h
      · simp at h
      · rename_i q s1 hq
        have l1 := skipWs_cons_length _ _ _ hq
        split at h
        · split at h
          · simp at h
          · rename_i key s2 hk
            have l2 := parseChars_length_lt _ _ _ hk
            split at h
            · simp at h
            · rename_i colon s3 hc
              have l3 := skipWs_cons_length _ _ _ hc
              split at h
              · split at h
                · simp at h
                · rename_i v s4 hv
                  have l4 := ihV _ _ _ hv
                  split at h
                  · simp at h
                  · rename_i c cs hs
                    have l5 := skipWs_cons_length _ _ _ hs
                    split at h
                    · simp at h
                      rw [← h.2]; omega
                    · split at h
                      · have := ihM _ _ _ _ h
                        omega
                      · simp at h
              · simp at h
        · simp at h

/-- Above the bound used by `JSON.parse`, one more unit of fuel changes nothing. -/
theorem parse_fuel_succ (numText : JSString → JSString) (f : Nat) :
    (∀ s, 2 * s.length + 1 ≤ f → parseValue numText (f + 1) s = parseValue numText f s)
      ∧ (∀ s, 2 * s.length + 2 ≤ f → parseElems numText (f + 1) s = parseElems numText f s)
      ∧ (∀ acc s, 2 * s.length + 1 ≤ f →
          parseMembers numText (f + 1) acc s = parseMembers numText f acc s) := by
  induction f with
  | zero =>
    refine ⟨?_, ?_, ?_⟩
    · intro s h; omega
    · intro s h; omega
    · intro acc s h; omega
  | succ f ih =>
    obtain ⟨ihV, ihE, ihM⟩ := ih
    refine ⟨?_, ?_, ?_⟩
    · intro s hf
      simp only [parseValue]
      cases hs : skipWs s with
      | nil => rfl
      | cons c cs =>
        have l1 := skipWs_cons_length _ _ _ hs
        simp only []
        cases hd : skipWs cs with
        | nil => rfl
        | cons d ds =>
          have l2 := skipWs_length_le cs
          rw [hd] at l2
          simp only [List.length_cons] at l2
          have l3 : (d :: ds).length ≤ cs.length := by simpa using l2
          simp only []
          rw [ihE (d :: ds) (by omega), ihM [] (d :: ds) (by omega)]
    · intro s hf
      rw [parseElems]
      conv_rhs => rw [parseElems]
      rw [ihV s (by omega)]
      cases hv : parseValue numText f s with
      | none => rfl
      | some p =>
        obtain ⟨v, r⟩ := p
        have l1 := (parse_length_lt numText f).1 _ _ _ hv
        simp only []
        cases hs : skipWs r with
        | nil => rfl
        | cons c cs =>
          have l2 := skipWs_cons_length _ _ _ hs
          simp only []
          rw [ihE cs (by omega)]
    · intro acc s hf
      rw [parseMembers]
      conv_rhs => rw [parseMembers]
      cases hq : skipWs s with
      | nil => rfl
      | cons q s1 =>
        have l1 := skipWs_cons_length _ _ _ hq
        simp only []
        cases hk : parseChars s1 with
        | none => rfl
        | some p =>
          obtain ⟨key, s2⟩ := p
          have l2 := parseChars_length_lt _ _ _ hk
          simp only []
          cases hc : skipWs s2 with
          | nil => rfl
          | cons colon s3 =>
            have l3 := skipWs_cons_length _ _ _ hc
            simp only []
            rw [ihV s3 (by omega)]
            cases hv : parseValue numText f s3 with
            | none => rfl
            | some p2 =>
              obtain ⟨v, s4⟩ := p2
              have l4 := (parse_length_lt numText f).1 _ _ _ hv
              simp only []
              cases hs4 : skipWs s4 with
              | nil => rfl
              | cons c cs =>
                have l5 := skipWs_cons_length _ _ _ hs4
                simp only []
                rw [ihM _ cs (by omega)]

/-- The fuel `JSON.parse` gives its parser is enough: any larger amount gives
the same result. -/
theorem parseValue_fuel_enough (numText : JSString → JSString) (s : JSString) (k : Nat) :
    parseValue numText (2 * s.length + 2 + k) s = parseValue numText (2 * s.length + 2) s := by
  induction k with
  | zero => rfl
  | succ k ih =>
    rw [← ih]
    exact (parse_fuel_succ numText (2 * s.length + 2 + k)).1 s (by omega)

/-- Some evaluations of the parser and of the two conversions. -/
theorem parse_nested_example :
    JSON.parse id (lit "[1,[2,[3,[4]]],\x7b\"b\":\x7b\"c\":[]\x7d\x7d]")
      = .ok (.arr [.num (lit "1"), .arr [.num (lit "2"), .arr [.num (lit "3"),
          .arr [.num (lit "4")]]], .obj [(lit "b", .obj [(lit "c", .arr [])])]]) := by
  rfl

theorem parse_duplicate_key_example :
    JSON.parse id (lit " \x7b \"a\" : [1, -2.5e+3, true, null, \x7b\x7d, []], \"a\": \"\\u0041\\n\" \x7d ")
      = .ok (.obj [(lit "a", .str (lit "A\n"))]) := by
  rfl

theorem parse_trailing_comma_example :
    JSON.parse id (lit "\x7b\"a\":1,\x7d") = .error .syntaxError := by
  rfl

theorem parse_leading_zero_example : JSON.parse id (lit "01") = .error .syntaxError := by
  rfl

theorem parse_empty_example : JSON.parse id [] = .error .syntaxError := by
  rfl

theorem stringify_escapes_example :
    JSON.stringify (.obj [(lit "name", .str [0xD83D, 0xDE00, 0xD800, 10, 34])])
      = some (lit "\x7b\"name\":\"" ++ [0xD83D, 0xDE00] ++ lit "\\ud800\\n\\\"\"\x7d") := by
  decide

theorem stringify_undefined_example :
    JSON.stringify (.obj [(lit "name", .undefined)]) = some (lit "\x7b\x7d") := by
  decide

theorem toDOMString_array_example :
    toDOMString (.arr [.null, .num (lit "1"), .arr [.str (lit "a"), .bool true]])
      = .ok (lit ",1,a,true") := by
  decide

theorem toDOMString_null_example : toDOMString .null = .ok [] := by
  rfl

mutual
theorem updateNode_none (id : JSString) (f : Element → Element) :
    ∀ n : Node, findInNode id n = none → updateNode id f n = none
  | .text _, _ => rfl
  | .br, _ => rfl
  | .element i v cs, h => by
    by_cases hi : i = some id
    · simp [findInNode, hi] at h
    · simp only [findInNode, hi, if_false] at h
      simp only [updateNode, hi, if_false, updateNodes_none id f cs h]
theorem updateNodes_none (id : JSString) (f : Element → Element) :
    ∀ ns : List Node, findInNodes id ns = none → updateNodes id f ns = none
  | [], _ => rfl
  | n :: rest, h => by
    simp only [findInNodes] at h
    cases hn : findInNode id n with
    | some el => rw [hn] at h; simp at h
    | none =>
      rw [hn] at h
      simp only [updateNodes, updateNode_none id f n hn, updateNodes_none id f rest h]
end

mutual
theorem updateNode_found (id : JSString) (f : Element → Element) :
    ∀ (n : Node) (el : Element), findInNode id n = some el →
      ∃ n2, updateNode id f n = some n2 ∧ findInNode id n2 = some (f el)
  | .text _, el, h => by simp [findInNode] at h
  | .br, el, h => by simp [findInNode] at h
  | .element i v cs, el, h => by
    by_cases hi : i = some id
    · subst hi
      simp only [findInNode, if_true, Option.some.injEq] at h
      subst h
      exact ⟨.element (some id) (f { value := v, children := cs }).value
        (f { value := v, children := cs }).children, by simp only [updateNode, if_true],
        by simp only [findInNode, if_true]⟩
    · simp only [findInNode, hi, if_false] at h
      obtain ⟨cs2, h1, h2⟩ := updateNodes_found id f cs el h
      exact ⟨.element i v cs2, by simp only [updateNode, hi, if_false, h1],
        by simp only [findInNode, hi, if_false, h2]⟩
theorem updateNodes_found (id : JSString) (f : Element → Element) :
    ∀ (ns : List Node) (el : Element), findInNodes id ns = some el →
      ∃ ns2, updateNodes id f ns = some ns2 ∧ findInNodes id ns2 = some (f el)
  | [], el, h => by simp [findInNodes] at h
  | n :: rest, el, h => by
    simp only [findInNodes] at h
    cases hn : findInNode id n with
    | some e1 =>
      rw [hn] at h
      simp only [Option.some.injEq] at h
      subst h
      obtain ⟨n2, h1, h2⟩ := updateNode_found id f n e1 hn
      exact ⟨n2 :: rest, by simp only [updateNodes, h1], by simp only [findInNodes, h2]⟩
    | none =>
      rw [hn] at h
      simp only at h
      obtain ⟨rest2, h1, h2⟩ := updateNodes_found id f rest el h
      exact ⟨n :: rest2, by simp only [updateNodes, updateNode_none id f n hn, h1],
        by simp only [findInNodes, hn, h2]⟩
end

theorem getElementById_setInnerText_self (id text : JSString) (p : Page) (el : Element)
    (h : getElementById id p = some el) :
    getElementById id (setInnerText id text p)
      = some { value := el.value, children := renderedTextFragment text } := by
  obtain ⟨p2, h1, h2⟩ := updateNodes_found id
    (fun el => { el with children := renderedTextFragment text }) p el h
  simp only [setInnerText, getElementById, h1, Option.getD_some, h2]

theorem getElementById_setValue_self (id : JSString) (v : JSVal) (p : Page) (el : Element)
    (h : getElementById id p = some el) :
    getElementById id (setValue id v p) = some { value := v, children := el.children } := by
  obtain ⟨p2, h1, h2⟩ := updateNodes_found id (fun el => { el with value := v }) p el h
  simp only [setValue, getElementById, h1, Option.getD_some, h2]

mutual
theorem updateNode_value_isSome (id id2 : JSString) (v : JSVal) :
    ∀ (n n2 : Node), updateNode id (fun el => { el with value := v }) n = some n2 →
      (findInNode id2 n2).isSome = (findInNode id2 n).isSome
  | .text _, n2, h => by simp [updateNode] at h
  | .br, n2, h => by simp [updateNode] at h
  | .element i w cs, n2, h => by
    by_cases hi : i = some id
    · subst hi
      simp only [updateNode, if_true, Option.some.injEq] at h
      subst h
      by_cases h2 : some id = some id2
      · simp [findInNode, h2]
      · simp [findInNode, h2]
    · simp only [updateNode, hi, if_false] at h
      cases hc : updateNodes id (fun el => { el with value := v }) cs with
      | none => rw [hc] at h; simp at h
      | some cs2 =>
        rw [hc] at h
        simp only [Option.some.injEq] at h
        subst h
        have ih := updateNodes_value_isSome id id2 v cs cs2 hc
        by_cases h2 : i = some id2
        · simp [findInNode, h2]
        · simp only [findInNode, h2, if_false, ih]
theorem updateNodes_value_isSome (id id2 : JSString) (v : JSVal) :
    ∀ (ns ns2 : List Node), updateNodes id (fun el => { el with value := v }) ns = some ns2 →
      (findInNodes id2 ns2).isSome = (findInNodes id2 ns).isSome
  | [], ns2, h => by simp [updateNodes] at h
  | n :: rest, ns2, h => by
    simp only [updateNodes] at h
    cases hn : updateNode id (fun el => { el with value := v }) n with
    | some n2 =>
      rw [hn] at h
      simp only [Option.some.injEq] at h
      subst h
      have ih := updateNode_value_isSome id id2 v n n2 hn
      simp only [findInNodes]
      cases h1 : findInNode id2 n2 <;> cases h2 : findInNode id2 n <;>
        simp [h1, h2] at ih ⊢
    | none =>
      rw [hn] at h
      cases hr : updateNodes id (fun el => { el with value := v }) rest with
      | none => rw [hr] at h; simp at h
      | some rest2 =>
        rw [hr] at h
        simp only [Option.some.injEq] at h
        subst h
        have ih := updateNodes_value_isSome id id2 v rest rest2 hr
        simp only [findInNodes]
        cases h1 : findInNode id2 n
        · simpa using ih
        · simp
end

theorem getElementById_setValue_isSome (id id2 : JSString) (v : JSVal) (p : Page) (el : Element)
    (h : getElementById id2 p = some el) :
    ∃ el2, getElementById id2 (setValue id v p) = some el2 := by
  unfold setValue getElementById at *
  cases hu : updateNodes id (fun el => { el with value := v }) p with
  | none => exact ⟨el, by simpa using h⟩
  | some p2 =>
    have := updateNodes_value_isSome id id2 v p p2 hu
    rw [h] at this
    simp only [Option.getD_some]
    exact Option.isSome_iff_exists.mp this

theorem textContentOf_append (a b : List Node) :
    textContentOf (a ++ b) = textContentOf a ++ textContentOf b := by
  induction a with
  | nil => simp [textContentOf]
  | cons n a ih => simp [textContentOf, ih]

theorem textContentOf_textRun (run : JSString) : textContentOf (textRun run) = run := by
  unfold textRun
  split
  · rename_i h; simp [textContentOf, h]
  · simp [textContentOf, Node.textContent]

theorem textContentOf_br (ns : List Node) : textContentOf (Node.br :: ns) = textContentOf ns := by
  simp [textContentOf, Node.textContent]

theorem textContentOf_fragmentFrom (run s : JSString) :
    textContentOf (fragmentFrom run s) = run ++ withoutLineBreaks s := by
  induction run, s using fragmentFrom.induct with
  | case1 run => simp [fragmentFrom, textContentOf_textRun, withoutLineBreaks]
  | case2 run c h =>
    have hb : isLineBreak c = true := by
      simp only [isLineBreak, Bool.or_eq_true, decide_eq_true_eq]; exact h
    simp [fragmentFrom, h, textContentOf_append, textContentOf_textRun, textContentOf_br,
      textContentOf, Node.textContent, withoutLineBreaks, hb]
  | case3 run c h =>
    have hb : isLineBreak c = false := by
      simp only [isLineBreak, Bool.or_eq_false_iff, decide_eq_false_iff_not]
      exact not_or.mp h
    simp [fragmentFrom, h, textContentOf_textRun, withoutLineBreaks, hb]
  | case4 run c d rest hc hd ih =>
    have hb : isLineBreak c = true := by simp [isLineBreak, hc]
    have hb2 : isLineBreak d = true := by simp [isLineBreak, hd]
    simp [fragmentFrom, hc, hd, textContentOf_append, textContentOf_textRun, textContentOf_br,
      ih, withoutLineBreaks, hb, hb2]
  | case5 run c d rest hc hd ih =>
    have hb : isLineBreak c = true := by simp [isLineBreak, hc]
    simp [fragmentFrom, hc, hd, textContentOf_append, textContentOf_textRun, textContentOf_br,
      ih, withoutLineBreaks, hb]
  | case6 run c d rest hc hc2 ih =>
    have hb : isLineBreak c = true := by simp [isLineBreak, hc2]
    simp [fragmentFrom, hc, hc2, textContentOf_append, textContentOf_textRun, textContentOf_br,
      ih, withoutLineBreaks, hb]
  | case7 run c d rest hc hc2 ih =>
    have hb : isLineBreak c = false := by simp [isLineBreak, hc, hc2]
    simp [fragmentFrom, hc, hc2, ih, withoutLineBreaks, hb]

theorem textContentOf_renderedTextFragment (s : JSString) :
    textContentOf (renderedTextFragment s) = withoutLineBreaks s := by
  simp [renderedTextFragment, textContentOf_fragmentFrom]

theorem fragmentFrom_no_break (run s : JSString) (h : ∀ c ∈ s, isLineBreak c = false) :
    fragmentFrom run s = textRun (run ++ s) := by
  induction run, s using fragmentFrom.induct with
  | case1 run => simp [fragmentFrom]
  | case2 run c hc =>
    have := h c (by simp)
    simp [isLineBreak] at this
    rcases hc with hc | hc
    · exact absurd hc this.1
    · exact absurd hc this.2
  | case3 run c hc => simp [fragmentFrom, hc]
  | case4 run c d rest hc hd ih =>
    have := h c (by simp)
    simp [isLineBreak, hc] at this
  | case5 run c d rest hc hd ih =>
    have := h c (by simp)
    simp [isLineBreak, hc] at this
  | case6 run c d rest hc hc2 ih =>
    have := h c (by simp)
    simp [isLineBreak, hc2] at this
  | case7 run c d rest hc hc2 ih =>
    simp only [fragmentFrom, hc, hc2, if_false]
    rw [ih (fun x hx => h x (by simp at hx ⊢; right; exact hx))]
    simp

theorem renderedTextFragment_no_break (s : JSString) (h : ∀ c ∈ s, isLineBreak c = false) :
    renderedTextFragment s = textRun s := by
  simpa [renderedTextFragment] using fragmentFrom_no_break [] s h

theorem withoutLineBreaks_no_break (s : JSString) (h : ∀ c ∈ s, isLineBreak c = false) :
    withoutLineBreaks s = s := by
  unfold withoutLineBreaks
  rw [List.filter_eq_self]
  intro c hc
  simp [h c hc]

/-- Some evaluations of the rendered text fragment: a carriage return followed
by a line feed is one `br`, each other line break is one `br`, and an empty run
gives no text node. -/
theorem renderedTextFragment_examples :
    renderedTextFragment [97, 13, 10, 98] = [.text [97], .br, .text [98]]
      ∧ renderedTextFragment [97, 10, 10, 98] = [.text [97], .br, .br, .text [98]]
      ∧ renderedTextFragment [13, 13, 10] = [.br, .br]
      ∧ renderedTextFragment [10] = [.br]
      ∧ renderedTextFragment [] = []
      ∧ renderedTextFragment (lit "Hello, Alice! ") = [.text (lit "Hello, Alice! ")] :=
  ⟨rfl, rfl, rfl, rfl, rfl, rfl⟩

/-- Setting `innerText` removes what the element contained: an element nested in
`greeting` is no longer found afterwards, an element outside it still is. -/
theorem setInnerText_nested_example :
    getElementById (lit "inner")
        [.element (some (lit "greeting")) .undefined
          [.element (some (lit "inner")) .undefined [.text (lit "x")]],
         .element (some (lit "name")) (.str (lit "Alice")) []]
        = some { value := .undefined, children := [.text (lit "x")] }
      ∧ getElementById (lit "inner")
        (setInnerText (lit "greeting") (lit "Hi")
          [.element (some (lit "greeting")) .undefined
            [.element (some (lit "inner")) .undefined [.text (lit "x")]],
           .element (some (lit "name")) (.str (lit "Alice")) []])
        = none
      ∧ getElementById (lit "name")
        (setInnerText (lit "greeting") (lit "Hi")
          [.element (some (lit "greeting")) .undefined
            [.element (some (lit "inner")) .undefined [.text (lit "x")]],
           .element (some (lit "name")) (.str (lit "Alice")) []])
        = some { value := .str (lit "Alice"), children := [] } :=
  ⟨rfl, rfl, rfl⟩

theorem getProp_of_hasProp_false (key : JSString) (ps : List (JSString × JSVal))
    (h : hasProp key ps = false) : getProp key ps = .undefined := by
  induction ps with
  | nil => rfl
  | cons x rest ih =>
    obtain ⟨k, v⟩ := x
    by_cases hk : k = key
    · simp [hasProp, hk] at h
    · simp [hasProp, hk] at h
      simp [getProp, hk, ih h]

/-- Whatever the environment answers, a run on a page with the field `name`
hands exactly one request to `fetch`: the one built from the value of the field. -/
theorem requests_exec_submitHandler (numText : JSString → JSString)
    (net : Request → Except Exn Response) (w : World) (el : Element)
    (hname : getElementById (lit "name") w.page = some el) :
    requests (exec numText net submitHandler w).1.trace
      = requests w.trace ++ [submitRequest el.value] := by
  simp only [submitHandler, exec, World.log, hname]
  split
  · simp [requests_append, requests]
  · split
    · simp [requests_append, requests]
    · split
      · simp [exec, requests_append, requests]
      · simp only [exec]
        split
        · simp [requests_append, requests]
        · split
          · simp [requests_append, requests]
          · simp [exec, World.log, requests_append, requests]

/-- A single run on the event loop, its two promises settled as the network
answers, leaves the world that `exec` computes. -/
theorem loop_single_run_eq_exec (numText : JSString → JSString)
    (net : Request → Except Exn Response) (w : World) (outcome : Except Exn Response)
    (h : ∀ el, getElementById (lit "name") w.page = some el →
      outcome = net (submitRequest el.value)) :
    (Loop.run numText submitHandler (Loop.init w)
        [Ev.submit, Ev.fetchSettled 0 outcome, Ev.bodySettled 0]).world
      = (exec numText net submitHandler { w with defaultPrevented := false }).1 := by
  cases hn : getElementById (lit "name") w.page with
  | none =>
    simp [Loop.run, Loop.step, Loop.init, submitHandler, advance, exec, World.log, hn]
  | some el =>
    rw [h el hn]
    cases hnet : net (submitRequest el.value) with
    | error e =>
      simp [Loop.run, Loop.step, Loop.init, submitHandler, advance, exec, World.log, hn, hnet]
    | ok r =>
      cases hj : r.json numText with
      | error e =>
        simp [Loop.run, Loop.step, Loop.init, submitHandler, advance, exec, World.log, hn, hnet,
          hj]
      | ok d =>
        cases hm : d.message with
        | error e =>
          simp [Loop.run, Loop.step, Loop.init, submitHandler, advance, exec, World.log, hn,
            hnet, hj, hm]
        | ok m =>
          cases hg : getElementById (lit "greeting") w.page with
          | none =>
            simp [Loop.run, Loop.step, Loop.init, submitHandler, advance, exec, World.log, hn,
              hnet, hj, hm, hg]
          | some g =>
            cases ht : toDOMString m with
            | error e =>
              simp [Loop.run, Loop.step, Loop.init, submitHandler, advance, exec, World.log, hn,
                hnet, hj, hm, hg, ht]
            | ok t =>
              simp [Loop.run, Loop.step, Loop.init, submitHandler, advance, exec, World.log, hn,
                hnet, hj, hm, hg, ht]

/-! ## The claims -/

/-- C1: for every string `v` held by the field `name` at submission time, the
run hands exactly one request to `fetch`; its method is `POST`, its URL
`/submit`, its only header `Content-Type: application/json`, and its body the
JSON serialization of the one-key object with `name` equal to `v`; for `Alice`
the body is the text `{"name":"Alice"}`. -/
theorem submit_issues_one_post_request (numText : JSString → JSString)
    (net : Request → Except Exn Response) (w : World) (el : Element) (v : JSString)
    (hname : getElementById (lit "name") w.page = some el) (hv : el.value = .str v) :
    requests (exec numText net submitHandler w).1.trace
        = requests w.trace ++ [submitRequest (.str v)]
      ∧ (submitRequest (.str v)).method = lit "POST"
      ∧ (submitRequest (.str v)).url = lit "/submit"
      ∧ (submitRequest (.str v)).headers = [(lit "Content-Type", lit "application/json")]
      ∧ (submitRequest (.str v)).body = JSON.stringify (.obj [(lit "name", .str v)])
      ∧ (submitRequest (.str v)).body = some (lit "\x7b\"name\":" ++ quoteJSONString v ++ lit "\x7d")
      ∧ (submitRequest (.str (lit "Alice"))).body = some (lit "\x7b\"name\":\"Alice\"\x7d") := by
  refine ⟨?_, rfl, rfl, rfl, rfl, stringify_name v, by decide⟩
  rw [requests_exec_submitHandler numText net w el hname, hv]

theorem submit_issues_one_post_request_witness :
    requests (exec id (fun _ => .ok helloAlice) submitHandler (worldWith (.str (lit "Alice")))).1.trace
        = [{ url := lit "/submit", method := lit "POST",
             headers := [(lit "Content-Type", lit "application/json")],
             body := some (lit "\x7b\"name\":\"Alice\"\x7d") }] := by
  have h := (submit_issues_one_post_request id (fun _ => .ok helloAlice)
    (worldWith (.str (lit "Alice"))) { value := .str (lit "Alice"), children := [] }
    (lit "Alice") rfl rfl).1
  rw [h]
  decide

/-- C2, as stated, fails: for the response body `{"message":"a\r\nb"}` the run
completes, the children of `greeting` are the text node `a`, a `br` element and
the text node `b`, and the `textContent` of `greeting` is `ab`, not the
message. -/
theorem greeting_text_differs_at_line_break :
    twoLines.json id = .ok (.obj [(lit "message", .str [97, 13, 10, 98])])
      ∧ (exec id (fun _ => .ok twoLines) submitHandler (worldWith (.str (lit "Alice")))).2 = .ok ()
      ∧ contentOf (lit "greeting")
          (exec id (fun _ => .ok twoLines) submitHandler (worldWith (.str (lit "Alice")))).1.page
        = some [.text [97], .br, .text [98]]
      ∧ textOf (lit "greeting")
          (exec id (fun _ => .ok twoLines) submitHandler (worldWith (.str (lit "Alice")))).1.page
        = some [97, 98]
      ∧ textOf (lit "greeting")
          (exec id (fun _ => .ok twoLines) submitHandler (worldWith (.str (lit "Alice")))).1.page
        ≠ some [97, 13, 10, 98] := by
  refine ⟨rfl, rfl, rfl, rfl, ?_⟩
  have h : textOf (lit "greeting")
      (exec id (fun _ => .ok twoLines) submitHandler (worldWith (.str (lit "Alice")))).1.page
        = some [97, 98] := rfl
  rw [h]
  decide

/-- C2, amended: when the response body parses to an object whose field `message`
is the string `m`, the run completes and the page is the one before with
`innerText` of `greeting` set to `m`: the children of `greeting` are the
rendered text fragment of `m`, so its `textContent` is `m` without its line
feeds and carriage returns, and exactly `m` when `m` has none; that assignment
is the only write of the run. -/
theorem greeting_holds_message_fragment (numText : JSString → JSString)
    (net : Request → Except Exn Response) (w : World) (el g : Element) (r : Response)
    (ps : List (JSString × JSVal)) (m : JSString)
    (hname : getElementById (lit "name") w.page = some el)
    (hgreet : getElementById (lit "greeting") w.page = some g)
    (hnet : net (submitRequest el.value) = .ok r)
    (hjson : r.json numText = .ok (.obj ps))
    (hmsg : getProp (lit "message") ps = .str m) :
    (exec numText net submitHandler w).2 = .ok ()
      ∧ (exec numText net submitHandler w).1.page = setInnerText (lit "greeting") m w.page
      ∧ contentOf (lit "greeting") (exec numText net submitHandler w).1.page
        = some (renderedTextFragment m)
      ∧ textOf (lit "greeting") (exec numText net submitHandler w).1.page
        = some (withoutLineBreaks m)
      ∧ ((∀ c ∈ m, isLineBreak c = false) →
          textOf (lit "greeting") (exec numText net submitHandler w).1.page = some m)
      ∧ writes (exec numText net submitHandler w).1.trace
        = writes w.trace ++ [(lit "greeting", m)] := by
  simp only [submitHandler, exec, World.log, hname, hnet, hjson, JSVal.message, hmsg, hgreet,
    toDOMString, toStringJS]
  refine ⟨trivial, trivial, ?_, ?_, ?_, ?_⟩
  · simp [contentOf, getElementById_setInnerText_self _ _ _ _ hgreet]
  · simp [textOf, getElementById_setInnerText_self _ _ _ _ hgreet,
      textContentOf_renderedTextFragment]
  · intro hm
    simp [textOf, getElementById_setInnerText_self _ _ _ _ hgreet,
      textContentOf_renderedTextFragment, withoutLineBreaks_no_break m hm]
  · simp [writes_append, writes]

theorem greeting_holds_message_fragment_witness :
    helloAlice.body = .ok (lit "\x7b\"message\":\"Hello, Alice!\"\x7d")
      ∧ textOf (lit "greeting")
          (exec id (fun _ => .ok helloAlice) submitHandler (worldWith (.str (lit "Alice")))).1.page
        = some (lit "Hello, Alice!") :=
  ⟨rfl, (greeting_holds_message_fragment id (fun _ => .ok helloAlice)
    (worldWith (.str (lit "Alice"))) { value := .str (lit "Alice"), children := [] }
    { value := .undefined, children := [.text (lit "Welcome")] } helloAlice
    [(lit "message", .str (lit "Hello, Alice!"))] (lit "Hello, Alice!")
    rfl rfl rfl rfl rfl).2.2.2.2.1 (fun c hc => by
      have h := List.all_eq_true.mp
        (show (lit "Hello, Alice!").all (fun c => !isLineBreak c) = true from rfl) c hc
      simpa using h)⟩

/-- C3: in every world and against every network, the first effect of the
handler is `preventDefault`, before the field is read and before any request,
and the default action is prevented when the run ends; the same holds for the
synchronous part of the run, which is what the dispatch of the event waits for. -/
theorem default_prevented_first (numText : JSString → JSString)
    (net : Request → Except Exn Response) (w : World) :
    (∃ rest, (exec numText net submitHandler w).1.trace = w.trace ++ Effect.preventDefault :: rest)
      ∧ (exec numText net submitHandler w).1.defaultPrevented = true
      ∧ (∃ rest, (advance submitHandler w).1.trace = w.trace ++ Effect.preventDefault :: rest)
      ∧ (advance submitHandler w).1.defaultPrevented = true := by
  refine ⟨?_, ?_, ?_, ?_⟩
  · simp only [submitHandler, exec, World.log]
    split
    · exact ⟨_, by simp; rfl⟩
    · split
      · exact ⟨_, by simp; rfl⟩
      · split
        · exact ⟨_, by simp; rfl⟩
        · split
          · exact ⟨_, by simp [exec]; rfl⟩
          · simp only [exec]
            split
            · exact ⟨_, by simp; rfl⟩
            · split
              · exact ⟨_, by simp; rfl⟩
              · exact ⟨_, by simp [exec, World.log]; rfl⟩
  · simp only [submitHandler, exec, World.log]
    split
    · rfl
    · split
      · rfl
      · split
        · rfl
        · split
          · simp [exec]
          · simp only [exec]
            split
            · rfl
            · split
              · rfl
              · simp [exec, World.log]
  · simp only [submitHandler, advance, World.log]
    split
    · exact ⟨_, by simp; rfl⟩
    · exact ⟨_, by simp; rfl⟩
  · simp only [submitHandler, advance, World.log]
    split <;> rfl

/-- C4: whatever string `v` the field holds, the run reads it and hands the
request built from `v` itself to `fetch`, with body `{"name":"` followed by the
quoted characters of `v` and `"}`: nothing is trimmed (a value with blanks
keeps them) and the empty string gives the body `{"name":""}`. -/
theorem no_validation_of_input (numText : JSString → JSString)
    (net : Request → Except Exn Response) (w : World) (el : Element) (v : JSString)
    (hname : getElementById (lit "name") w.page = some el) (hv : el.value = .str v) :
    (∃ rest, (exec numText net submitHandler w).1.trace
        = w.trace ++ [Effect.preventDefault, Effect.readValue (lit "name"),
            Effect.fetchCalled (submitRequest (.str v))] ++ rest)
      ∧ (submitRequest (.str v)).body = some (lit "\x7b\"name\":\"" ++ quoteBody v ++ lit "\"\x7d")
      ∧ (submitRequest (.str [])).body = some (lit "\x7b\"name\":\"\"\x7d")
      ∧ (submitRequest (.str (lit "  Al ice "))).body = some (lit "\x7b\"name\":\"  Al ice \"\x7d") := by
  refine ⟨?_, ?_, by decide, by decide⟩
  · simp only [submitHandler, exec, World.log, hname, hv]
    split
    · exact ⟨_, by simp; rfl⟩
    · split
      · exact ⟨_, by simp; rfl⟩
      · split
        · exact ⟨_, by simp [exec]; rfl⟩
        · simp only [exec]
          split
          · exact ⟨_, by simp; rfl⟩
          · split
            · exact ⟨_, by simp; rfl⟩
            · exact ⟨_, by simp [exec, World.log]; rfl⟩
  · have h : lit "\x7b\"name\":\"" = lit "\x7b\"name\":" ++ [34] := by decide
    have h2 : lit "\"\x7d" = 34 :: lit "\x7d" := by decide
    rw [h, h2]
    simpa [quoteJSONString] using stringify_name v

theorem no_validation_of_input_witness :
    requests (exec id (fun _ => .ok helloAlice) submitHandler (worldWith (.str []))).1.trace
        = [submitRequest (.str [])]
      ∧ (submitRequest (.str [])).body = some (lit "\x7b\"name\":\"\"\x7d") := by
  have h := no_validation_of_input id (fun _ => .ok helloAlice) (worldWith (.str []))
    { value := .str [], children := [] } [] rfl rfl
  obtain ⟨⟨rest, hrest⟩, -, hbody, -⟩ := h
  exact ⟨by rfl, hbody⟩

/-- C5: when the response body parses to an object without a field `message`,
the run still completes and writes to `greeting`, whose text becomes the string
`undefined` (its only child is then the text node `undefined`). -/
theorem missing_message_shows_undefined (numText : JSString → JSString)
    (net : Request → Except Exn Response) (w : World) (el g : Element) (r : Response)
    (ps : List (JSString × JSVal))
    (hname : getElementById (lit "name") w.page = some el)
    (hgreet : getElementById (lit "greeting") w.page = some g)
    (hnet : net (submitRequest el.value) = .ok r)
    (hjson : r.json numText = .ok (.obj ps))
    (hmsg : hasProp (lit "message") ps = false) :
    (exec numText net submitHandler w).2 = .ok ()
      ∧ textOf (lit "greeting") (exec numText net submitHandler w).1.page = some (lit "undefined")
      ∧ writes (exec numText net submitHandler w).1.trace
          = writes w.trace ++ [(lit "greeting", lit "undefined")]
      ∧ contentOf (lit "greeting") (exec numText net submitHandler w).1.page
          = some [.text (lit "undefined")] := by
  have hfrag : renderedTextFragment (lit "undefined") = [.text (lit "undefined")] := by rfl
  have htext : textContentOf [Node.text (lit "undefined")] = lit "undefined" := by
    simp [textContentOf, Node.textContent]
  simp only [submitHandler, exec, World.log, hname, hnet, hjson, JSVal.message,
    getProp_of_hasProp_false _ _ hmsg, hgreet, toDOMString, toStringJS]
  refine ⟨trivial, ?_, ?_, ?_⟩
  · simp [textOf, getElementById_setInnerText_self _ _ _ _ hgreet, hfrag, htext]
  · simp [writes_append, writes]
  · simp [contentOf, getElementById_setInnerText_self _ _ _ _ hgreet, hfrag]

theorem missing_message_shows_undefined_witness :
    noMessage.body = .ok (lit "\x7b\"status\":\"ok\"\x7d")
      ∧ textOf (lit "greeting")
          (exec id (fun _ => .ok noMessage) submitHandler (worldWith (.str (lit "Alice")))).1.page
        = some (lit "undefined") :=
  ⟨rfl, (missing_message_shows_undefined id (fun _ => .ok noMessage)
    (worldWith (.str (lit "Alice"))) { value := .str (lit "Alice"), children := [] }
    { value := .undefined, children := [.text (lit "Welcome")] } noMessage
    [(lit "status", .str (lit "ok"))] rfl rfl rfl rfl rfl).2.1⟩

/-- C6: when `fetch` rejects with `e`, or the response arrives and
`response.json()` rejects with `e` (the body cannot be read or is not JSON), the
run ends with the error `e`, the page is exactly as before, nothing is written,
and the request sent first is the only request of the run. -/
theorem failure_leaves_page_unchanged (numText : JSString → JSString)
    (net : Request → Except Exn Response) (w : World) (el : Element) (e : Exn)
    (hname : getElementById (lit "name") w.page = some el)
    (hfail : net (submitRequest el.value) = .error e
      ∨ ∃ r, net (submitRequest el.value) = .ok r ∧ r.json numText = .error e) :
    (exec numText net submitHandler w).2 = .error e
      ∧ (exec numText net submitHandler w).1.page = w.page
      ∧ writes (exec numText net submitHandler w).1.trace = writes w.trace
      ∧ requests (exec numText net submitHandler w).1.trace
          = requests w.trace ++ [submitRequest el.value] := by
  rcases hfail with h | ⟨r, h, hj⟩
  · simp [submitHandler, exec, World.log, hname, h, writes_append, writes, requests_append,
      requests]
  · simp [submitHandler, exec, World.log, hname, h, hj, writes_append, writes, requests_append,
      requests]

theorem failure_leaves_page_unchanged_witness :
    ((exec id (fun _ => .error (.rejection (lit "Failed to fetch"))) submitHandler
          (worldWith (.str (lit "Alice")))).2 = .error (.rejection (lit "Failed to fetch"))
        ∧ (exec id (fun _ => .error (.rejection (lit "Failed to fetch"))) submitHandler
          (worldWith (.str (lit "Alice")))).1.page = pageWith (.str (lit "Alice")))
      ∧ ((exec id (fun _ => .ok notJson) submitHandler
          (worldWith (.str (lit "Alice")))).2 = .error .syntaxError
        ∧ (exec id (fun _ => .ok notJson) submitHandler
          (worldWith (.str (lit "Alice")))).1.page = pageWith (.str (lit "Alice"))) :=
  by
  have h1 := failure_leaves_page_unchanged id
    (fun _ => .error (.rejection (lit "Failed to fetch")))
    (worldWith (.str (lit "Alice"))) { value := .str (lit "Alice"), children := [] }
    (.rejection (lit "Failed to fetch")) rfl (Or.inl rfl)
  have h2 := failure_leaves_page_unchanged id (fun _ => .ok notJson)
    (worldWith (.str (lit "Alice"))) { value := .str (lit "Alice"), children := [] }
    .syntaxError rfl (Or.inr ⟨notJson, rfl, rfl⟩)
  exact ⟨⟨h1.1, h1.2.1⟩, ⟨h2.1, h2.2.1⟩⟩

/-- C7, as stated, fails: two submissions are in flight, the response to the
first arrives, then the response to the second, whose body is parsed before the
body of the first.  The response of the second submission is the last to
arrive, yet the final text of `greeting` is the message of the first. -/
theorem last_arrived_response_not_shown :
    lastFetchSettled [Ev.fetchSettled 0 (.ok helloAlice), Ev.fetchSettled 1 (.ok helloBob),
        Ev.bodySettled 1, Ev.bodySettled 0] = some 1
      ∧ textOf (lit "greeting")
          (Loop.run id submitHandler (Loop.init (worldWith (.str (lit "Alice"))))
            (twoSubmissions (.str (lit "Bob")) ++
              [Ev.fetchSettled 0 (.ok helloAlice), Ev.fetchSettled 1 (.ok helloBob),
                Ev.bodySettled 1, Ev.bodySettled 0])).world.page
        = some (lit "Hello, Alice!")
      ∧ textOf (lit "greeting")
          (Loop.run id submitHandler (Loop.init (worldWith (.str (lit "Alice"))))
            (twoSubmissions (.str (lit "Bob")) ++
              [Ev.fetchSettled 0 (.ok helloAlice), Ev.fetchSettled 1 (.ok helloBob),
                Ev.bodySettled 1, Ev.bodySettled 0])).world.page
        ≠ some (lit "Hello, Bob!") := by
  have h : textOf (lit "greeting")
      (Loop.run id submitHandler (Loop.init (worldWith (.str (lit "Alice"))))
        (twoSubmissions (.str (lit "Bob")) ++
          [Ev.fetchSettled 0 (.ok helloAlice), Ev.fetchSettled 1 (.ok helloBob),
            Ev.bodySettled 1, Ev.bodySettled 0])).world.page
        = some (lit "Hello, Alice!") := rfl
  refine ⟨rfl, h, ?_⟩
  rw [h]
  decide

/-- C7, amended: two submissions are fired before either response arrives, and
the four promises settle in any order that keeps each run's own order.  Each
submission hands its own single request to `fetch` as soon as it is fired,
without waiting for the other; no further request is issued; both runs write
their message; and the final content of `greeting` is the rendered text
fragment of the message of the response whose body is parsed last (whose
`json()` promise settles last), which for one order is the first submission's
message and for another the second's. -/
theorem overlapping_submissions_last_parsed_wins (numText : JSString → JSString) (w : World)
    (el g : Element) (v2 : JSVal) (r1 r2 : Response) (ps1 ps2 : List (JSString × JSVal))
    (m1 m2 : JSString) (σ : List Ev)
    (hname : getElementById (lit "name") w.page = some el)
    (hgreet : getElementById (lit "greeting") w.page = some g)
    (hjson1 : r1.json numText = .ok (.obj ps1))
    (hmsg1 : getProp (lit "message") ps1 = .str m1)
    (hjson2 : r2.json numText = .ok (.obj ps2))
    (hmsg2 : getProp (lit "message") ps2 = .str m2)
    (hσ : σ ∈ shuffles [Ev.fetchSettled 0 (.ok r1), Ev.bodySettled 0]
        [Ev.fetchSettled 1 (.ok r2), Ev.bodySettled 1]) :
    requests (Loop.run numText submitHandler (Loop.init w) (twoSubmissions v2)).world.trace
        = requests w.trace ++ [submitRequest el.value, submitRequest v2]
      ∧ requests (Loop.run numText submitHandler (Loop.init w) (twoSubmissions v2 ++ σ)).world.trace
        = requests w.trace ++ [submitRequest el.value, submitRequest v2]
      ∧ (Loop.run numText submitHandler (Loop.init w) (twoSubmissions v2 ++ σ)).prevented
        = [true, true]
      ∧ writes (Loop.run numText submitHandler (Loop.init w) (twoSubmissions v2 ++ σ)).world.trace
        = writes w.trace ++
          (if lastBodySettled σ = some 0 then [(lit "greeting", m2), (lit "greeting", m1)]
            else [(lit "greeting", m1), (lit "greeting", m2)])
      ∧ contentOf (lit "greeting")
          (Loop.run numText submitHandler (Loop.init w) (twoSubmissions v2 ++ σ)).world.page
        = some (renderedTextFragment (if lastBodySettled σ = some 0 then m1 else m2))
      ∧ textOf (lit "greeting")
          (Loop.run numText submitHandler (Loop.init w) (twoSubmissions v2 ++ σ)).world.page
        = some (withoutLineBreaks (if lastBodySettled σ = some 0 then m1 else m2))
      ∧ contentOf (lit "greeting")
          (Loop.run numText submitHandler (Loop.init w)
            (twoSubmissions v2 ++ [Ev.fetchSettled 0 (.ok r1), Ev.fetchSettled 1 (.ok r2),
              Ev.bodySettled 1, Ev.bodySettled 0])).world.page
        = some (renderedTextFragment m1)
      ∧ contentOf (lit "greeting")
          (Loop.run numText submitHandler (Loop.init w)
            (twoSubmissions v2 ++ [Ev.fetchSettled 0 (.ok r1), Ev.bodySettled 0,
              Ev.fetchSettled 1 (.ok r2), Ev.bodySettled 1])).world.page
        = some (renderedTextFragment m2) := by
  have hn2 := getElementById_setValue_self (lit "name") v2 w.page el hname
  obtain ⟨g2, hg2⟩ := getElementById_setValue_isSome (lit "name") (lit "greeting") v2 w.page g
    hgreet
  have hA : ∀ t, getElementById (lit "greeting")
      (setInnerText (lit "greeting") t (setValue (lit "name") v2 w.page))
        = some { value := g2.value, children := renderedTextFragment t } :=
    fun t => getElementById_setInnerText_self _ t _ _ hg2
  have hB : ∀ t t2, getElementById (lit "greeting")
      (setInnerText (lit "greeting") t2
        (setInnerText (lit "greeting") t (setValue (lit "name") v2 w.page)))
        = some { value := g2.value, children := renderedTextFragment t2 } :=
    fun t t2 => by rw [getElementById_setInnerText_self _ t2 _ _ (hA t)]
  simp only [shuffles, List.map, List.append, List.mem_cons, List.mem_append, List.mem_singleton,
    List.map_cons, List.map_nil, List.cons_append, List.nil_append, List.not_mem_nil,
    or_false] at hσ
  refine ⟨?_, ?_, ?_, ?_, ?_, ?_, ?_, ?_⟩
  · simp [Loop.run, Loop.step, Loop.init, twoSubmissions, submitHandler, advance, World.log,
      hname, hn2, requests_append, requests]
  · rcases hσ with h | h | h | h | h | h <;> subst h <;>
      simp [Loop.run, Loop.step, Loop.init, twoSubmissions, submitHandler, advance, World.log,
        hname, hn2, hg2, hA, hB, hjson1, hjson2, hmsg1, hmsg2, JSVal.message, toDOMString,
        toStringJS, requests_append, requests]
  · rcases hσ with h | h | h | h | h | h <;> subst h <;>
      simp [Loop.run, Loop.step, Loop.init, twoSubmissions, submitHandler, advance, World.log,
        hname, hn2, hg2, hA, hB, hjson1, hjson2, hmsg1, hmsg2, JSVal.message, toDOMString,
        toStringJS]
  · rcases hσ with h | h | h | h | h | h <;> subst h <;>
      simp [Loop.run, Loop.step, Loop.init, twoSubmissions, submitHandler, advance, World.log,
        hname, hn2, hg2, hA, hB, hjson1, hjson2, hmsg1, hmsg2, JSVal.message, toDOMString,
        toStringJS, writes_append, writes, lastBodySettled]
  · rcases hσ with h | h | h | h | h | h <;> subst h <;>
      simp [Loop.run, Loop.step, Loop.init, twoSubmissions, submitHandler, advance, World.log,
        hname, hn2, hg2, hA, hB, hjson1, hjson2, hmsg1, hmsg2, JSVal.message, toDOMString,
        toStringJS, contentOf, lastBodySettled]
  · rcases hσ with h | h | h | h | h | h <;> subst h <;>
      simp [Loop.run, Loop.step, Loop.init, twoSubmissions, submitHandler, advance, World.log,
        hname, hn2, hg2, hA, hB, hjson1, hjson2, hmsg1, hmsg2, JSVal.message, toDOMString,
        toStringJS, textOf, lastBodySettled, textContentOf_renderedTextFragment]
  · simp [Loop.run, Loop.step, Loop.init, twoSubmissions, submitHandler, advance, World.log,
      hname, hn2, hg2, hA, hB, hjson1, hjson2, hmsg1, hmsg2, JSVal.message, toDOMString,
      toStringJS, contentOf]
  · simp [Loop.run, Loop.step, Loop.init, twoSubmissions, submitHandler, advance, World.log,
      hname, hn2, hg2, hA, hB, hjson1, hjson2, hmsg1, hmsg2, JSVal.message, toDOMString,
      toStringJS, contentOf]

theorem overlapping_submissions_last_parsed_wins_witness :
    lastBodySettled [Ev.fetchSettled 1 (.ok helloBob), Ev.fetchSettled 0 (.ok helloAlice),
        Ev.bodySettled 0, Ev.bodySettled 1] = some 1
      ∧ contentOf (lit "greeting")
          (Loop.run id submitHandler (Loop.init (worldWith (.str (lit "Alice"))))
            (twoSubmissions (.str (lit "Bob")) ++
              [Ev.fetchSettled 1 (.ok helloBob), Ev.fetchSettled 0 (.ok helloAlice),
                Ev.bodySettled 0, Ev.bodySettled 1])).world.page
        = some [.text (lit "Hello, Bob!")] :=
  ⟨rfl, (overlapping_submissions_last_parsed_wins id (worldWith (.str (lit "Alice")))
    { value := .str (lit "Alice"), children := [] }
    { value := .undefined, children := [.text (lit "Welcome")] } (.str (lit "Bob"))
    helloAlice helloBob
    [(lit "message", .str (lit "Hello, Alice!"))] [(lit "message", .str (lit "Hello, Bob!"))]
    (lit "Hello, Alice!") (lit "Hello, Bob!")
    [Ev.fetchSettled 1 (.ok helloBob), Ev.fetchSettled 0 (.ok helloAlice),
      Ev.bodySettled 0, Ev.bodySettled 1]
    rfl rfl rfl rfl rfl rfl (by simp [shuffles])).2.2.2.2.1⟩

/-- C8: the effects of every run are an initial stretch of the fixed sequence
prevent the default, read the field `name`, call `fetch` with the request built
from the value read, `fetch` resolved, call `json()`, `json()` resolved, set the
text of `greeting`; a run that completes performs the whole sequence.  So the
body is read only after the network call has resolved, and `greeting` is
written only after the body has been parsed. -/
theorem effects_in_fixed_order (numText : JSString → JSString)
    (net : Request → Except Exn Response) (w : World) :
    ∃ (name : JSVal) (text : JSString) (t : List Effect),
      (exec numText net submitHandler w).1.trace = w.trace ++ t
        ∧ t <+: [Effect.preventDefault, Effect.readValue (lit "name"),
            Effect.fetchCalled (submitRequest name), Effect.fetchResolved, Effect.jsonCalled,
            Effect.jsonResolved, Effect.innerTextSet (lit "greeting") text]
        ∧ ((exec numText net submitHandler w).2 = .ok () →
            t = [Effect.preventDefault, Effect.readValue (lit "name"),
              Effect.fetchCalled (submitRequest name), Effect.fetchResolved, Effect.jsonCalled,
              Effect.jsonResolved, Effect.innerTextSet (lit "greeting") text])
        ∧ (∀ el, getElementById (lit "name") w.page = some el → name = el.value) := by
  cases hn : getElementById (lit "name") w.page with
  | none =>
    exact ⟨.undefined, [], [.preventDefault, .readValue (lit "name")],
      by simp [submitHandler, exec, World.log, hn], ⟨_, rfl⟩,
      by simp [submitHandler, exec, World.log, hn], by simp⟩
  | some el =>
    have hel : ∀ el2, some el = some el2 → el.value = el2.value := by
      intro el2 h; cases h; rfl
    simp only [submitHandler, exec, World.log, hn]
    split
    · exact ⟨el.value, [], [.preventDefault, .readValue (lit "name"),
        .fetchCalled (submitRequest el.value)], by simp, ⟨_, rfl⟩, by simp, hel⟩
    · split
      · exact ⟨el.value, [], [.preventDefault, .readValue (lit "name"),
          .fetchCalled (submitRequest el.value), .fetchResolved, .jsonCalled], by simp,
          ⟨_, rfl⟩, by simp, hel⟩
      · split
        · exact ⟨el.value, [], [.preventDefault, .readValue (lit "name"),
            .fetchCalled (submitRequest el.value), .fetchResolved, .jsonCalled, .jsonResolved],
            by simp [exec], ⟨_, rfl⟩, by simp [exec], hel⟩
        · simp only [exec]
          split
          · exact ⟨el.value, [], [.preventDefault, .readValue (lit "name"),
              .fetchCalled (submitRequest el.value), .fetchResolved, .jsonCalled, .jsonResolved],
              by simp, ⟨_, rfl⟩, by simp, hel⟩
          · split
            · exact ⟨el.value, [], [.preventDefault, .readValue (lit "name"),
                .fetchCalled (submitRequest el.value), .fetchResolved, .jsonCalled,
                .jsonResolved], by simp, ⟨_, rfl⟩, by simp, hel⟩
            · rename_i text _
              exact ⟨el.value, text, [.preventDefault, .readValue (lit "name"),
                .fetchCalled (submitRequest el.value), .fetchResolved, .jsonCalled,
                .jsonResolved, .innerTextSet (lit "greeting") text],
                by simp [exec, World.log], ⟨[], by simp⟩, by simp, hel⟩

/-- C9: two responses that both parse and whose parsed bodies give the same
`data.message` lead to the same run, whatever their status codes and their
other fields: the same text is written to `greeting`, the same page results,
and the run ends the same way. -/
theorem greeting_depends_only_on_message (numText : JSString → JSString)
    (net1 net2 : Request → Except Exn Response) (w : World) (el : Element) (r1 r2 : Response)
    (d1 d2 : JSVal)
    (hname : getElementById (lit "name") w.page = some el)
    (hnet1 : net1 (submitRequest el.value) = .ok r1)
    (hnet2 : net2 (submitRequest el.value) = .ok r2)
    (hjson1 : r1.json numText = .ok d1)
    (hjson2 : r2.json numText = .ok d2)
    (hmsg : d1.message = d2.message) :
    exec numText net1 submitHandler w = exec numText net2 submitHandler w := by
  simp only [submitHandler, exec, World.log, hname, hnet1, hnet2, hjson1, hjson2, hmsg]
  split
  · simp [exec]
  · simp only [exec]

theorem greeting_depends_only_on_message_witness :
    helloAlice.status = 200 ∧ helloAliceFailed.status = 500
      ∧ exec id (fun _ => .ok helloAlice) submitHandler (worldWith (.str (lit "Alice")))
        = exec id (fun _ => .ok helloAliceFailed) submitHandler (worldWith (.str (lit "Alice"))) :=
  ⟨rfl, rfl, greeting_depends_only_on_message id (fun _ => .ok helloAlice)
    (fun _ => .ok helloAliceFailed) (worldWith (.str (lit "Alice")))
    { value := .str (lit "Alice"), children := [] } helloAlice helloAliceFailed
    (.obj [(lit "message", .str (lit "Hello, Alice!"))])
    (.obj [(lit "error", .bool true), (lit "message", .str (lit "Hello, Alice!"))])
    rfl rfl rfl rfl rfl rfl⟩

/-- C10: for every string `v` held by the field `name`, whatever code units it
contains, the body of the request of the run is a JSON text that `JSON.parse`
accepts, and it parses to the object whose only key is `name`, with value `v`. -/
theorem request_body_round_trips (numText : JSString → JSString)
    (net : Request → Except Exn Response) (w : World) (el : Element) (v : JSString)
    (hname : getElementById (lit "name") w.page = some el) (hv : el.value = .str v) :
    ∃ req body, requests (exec numText net submitHandler w).1.trace = requests w.trace ++ [req]
      ∧ req.body = some body
      ∧ JSON.parse numText body = .ok (.obj [(lit "name", .str v)]) := by
  refine ⟨submitRequest (.str v), lit "\x7b\"name\":" ++ quoteJSONString v ++ lit "\x7d", ?_,
    stringify_name v, parse_name_body numText v⟩
  rw [requests_exec_submitHandler numText net w el hname, hv]

theorem request_body_round_trips_witness :
    ∃ req body,
      requests (exec id (fun _ => .ok helloAlice) submitHandler
          (worldWith (.str [34, 92, 10, 0xD800, 0xE9, 0xD83D, 0xDE00]))).1.trace
        = requests (worldWith (.str [34, 92, 10, 0xD800, 0xE9, 0xD83D, 0xDE00])).trace ++ [req]
      ∧ req.body = some body
      ∧ JSON.parse id body
        = .ok (.obj [(lit "name", .str [34, 92, 10, 0xD800, 0xE9, 0xD83D, 0xDE00])]) :=
  request_body_round_trips id (fun _ => .ok helloAlice)
    (worldWith (.str [34, 92, 10, 0xD800, 0xE9, 0xD83D, 0xDE00]))
    { value := .str [34, 92, 10, 0xD800, 0xE9, 0xD83D, 0xDE00], children := [] }
    [34, 92, 10, 0xD800, 0xE9, 0xD83D, 0xDE00] rfl rfl

end Voicer
